import Mathlib

/-!
demkowo/forum: comment forest builder and reaction coordinator

A shallow embedding of

* `handlers/forum_handler.go`: the two-pass forest construction inside
  `FindComments` and `FindCommentsByArticle`;
* `services/forum_service.go`: `AddLike`, `DeleteLike`, `AddDislike`,
  `DeleteDislike`, `AddComplaint`, `DeleteComplaint`, `DeleteComment` and the
  counts;
* `repositories/postgres/forum_repository.go`: the SQL statements behind these
  operations, over the `likes`, `dislikes`, `complaints` and `comments` tables.

Identifiers (`uuid.UUID`) are natural numbers; only equality is ever used on
them.  Go `error` values are `Option String` (`none` is `nil`, `some s` is an
error whose `Error()` text is `s`).
-/

namespace Forum

open scoped List

/-! ## models/forum_model.go -/

/-- A `uuid.UUID`; `0` is the zero value `uuid.Nil`. -/
abbrev UUID := Nat

/-- The record `model.Comment`. `Created` is a timestamp, kept as an integer. -/
structure Comment where
  Id : UUID
  ArticleId : UUID := 0
  ThreadId : UUID
  ParentId : UUID := 0
  Author : String := ""
  Content : String := ""
  Created : Int := 0
  Deleted : Bool := false
deriving DecidableEq, Repr

/-- The record `model.Like`. -/
structure Like where
  Id : UUID := 0
  CommentId : UUID
  UserId : UUID
deriving DecidableEq, Repr

/-- The record `model.Dislike`. -/
structure Dislike where
  Id : UUID := 0
  CommentId : UUID
  UserId : UUID
deriving DecidableEq, Repr

/-- The record `model.Complaint`. -/
structure Complaint where
  Id : UUID := 0
  CommentId : UUID
  UserId : UUID
  Message : String := ""
deriving DecidableEq, Repr

/-! ## handlers/forum_handler.go: the forest builder -/

/-- The struct `CommentNode`. `Comment` is the comment the node's pointer leads to
when the response is serialised; `Childs` is the content of the slice as seen
through this copy of the struct. -/
inductive CommentNode where
  | mk (ID : UUID) (Comment : Comment) (Childs : List CommentNode)

/-- Field `ID`. -/
def CommentNode.ID : CommentNode → UUID
  | .mk id _ _ => id

/-- Field `Comment`, dereferenced. -/
def CommentNode.Comment : CommentNode → Comment
  | .mk _ c _ => c

/-- Field `Childs`. -/
def CommentNode.Childs : CommentNode → List CommentNode
  | .mk _ _ cs => cs

/-- The map `commentMap` of type `map[uuid.UUID]*CommentNode`: every key leads to
its own heap node, and the nodes are only ever reached through the map, so the
map is a function from keys to the current value of the node (`none`: no entry,
a lookup yields the nil pointer). -/
abbrev CommentMap := UUID → Option CommentNode

/-- The assignment `commentMap[k] = node`. -/
def CommentMap.set (m : CommentMap) (k : UUID) (n : CommentNode) : CommentMap :=
  fun j => if j = k then some n else m j

/-- What `&val` leads to once the first loop is over. With a loop variable per
iteration (`loopvar = true`, Go 1.22 and later) every iteration has its own `val`;
before that the loop has a single `val`, which holds the last element of `res`
when the loop ends. The language version of the module is not part of the
sources, so it is a parameter. -/
def pointee (loopvar : Bool) (res : List Comment) (val : Comment) : Comment :=
  if loopvar then val else res.getLast?.getD val

/-- First loop of `FindComments`: one fresh node per comment, with an empty child
slice, stored under the comment's id. -/
def firstPass (loopvar : Bool) (res : List Comment) : CommentMap :=
  res.foldl (fun m val => m.set val.Id (.mk val.Id (pointee loopvar res val) [])) (fun _ => none)

/-- Body of the second loop of `FindComments` for one `val`. `*commentMap[val.Id]`
copies the node by value (the copy keeps the child slice as it is at that
moment); on a missing entry the dereference of the nil pointer panics (`none`).
`parentNode.Childs = append(...)` writes the node held by the map. -/
def groupStep (m : CommentMap) (roots : List CommentNode) (val : Comment) :
    Option (CommentMap × List CommentNode) :=
  if val.ThreadId = val.Id then
    match m val.Id with
    | none => none
    | some node => some (m, roots ++ [node])
  else
    match m val.ThreadId with
    | some parentNode =>
      match m val.Id with
      | none => none
      | some node =>
        some (m.set val.ThreadId (.mk parentNode.ID parentNode.Comment (parentNode.Childs ++ [node])),
          roots)
    | none =>
      match m val.Id with
      | none => none
      | some node => some (m, roots ++ [node])

/-- Second loop of `FindComments`, over the remaining comments. -/
def groupLoop (m : CommentMap) (roots : List CommentNode) :
    List Comment → Option (CommentMap × List CommentNode)
  | [] => some (m, roots)
  | val :: rest =>
    match groupStep m roots val with
    | none => none
    | some st => groupLoop st.1 st.2 rest

/-- The payload `gin.H{"comments": roots, "count": len(res)}`. -/
structure CommentsResponse where
  comments : List CommentNode
  count : Nat

/-- Handler `FindComments`, from the point where the service has returned `res`
without error: both loops, then the payload of the 200 response. `none` is a
panic of the handler. -/
def FindComments (loopvar : Bool) (res : List Comment) : Option CommentsResponse :=
  match groupLoop (firstPass loopvar res) [] res with
  | none => none
  | some st => some { comments := st.2, count := res.length }

/-- Handler `FindCommentsByArticle`, from the point where the service has returned
the comments of the article: the same two loops and the same payload. -/
def FindCommentsByArticle (loopvar : Bool) (res : List Comment) : Option CommentsResponse :=
  match groupLoop (firstPass loopvar res) [] res with
  | none => none
  | some st => some { comments := st.2, count := res.length }

/-! ## repositories/postgres/forum_repository.go: the reaction tables -/

/-- The database behind `forumRepo.db`: the rows of the tables `likes`,
`dislikes`, `complaints` and `comments`, and `faults`, the outcome of the coming
fallible driver calls (`db.Exec`, `result.RowsAffected`, `row.Scan`), one entry
per call: `none` lets the call succeed, `some e` makes it fail with the error
text `e` and without effect. An empty script means that no call fails any more.
Failures of the driver cover everything the tables do not decide here (lost
connection, violation of a primary or foreign key). -/
structure DB where
  likes : List Like
  dislikes : List Dislike
  faults : List (Option String) := []
  complaints : List Complaint := []
  comments : List Comment := []
deriving DecidableEq, Repr

/-- Takes the outcome of the next driver call off the script. -/
def DB.nextFault (db : DB) : Option String × DB :=
  match db.faults with
  | [] => (none, db)
  | f :: fs => (f, { db with faults := fs })

/-- The condition `comment_id = $1 AND user_id = $2` on a row of `likes`. -/
def Like.isFor (c u : UUID) (r : Like) : Bool := r.CommentId == c && r.UserId == u

/-- The condition `comment_id = $1 AND user_id = $2` on a row of `dislikes`. -/
def Dislike.isFor (c u : UUID) (r : Dislike) : Bool := r.CommentId == c && r.UserId == u

/-- The conflict target `(comment_id, user_id)` on a row of `complaints`. -/
def Complaint.isFor (c u : UUID) (r : Complaint) : Bool := r.CommentId == c && r.UserId == u

namespace postgres

/-- Method `forumRepo.AddLike`: `INSERT INTO likes ... ON CONFLICT (comment_id, user_id)
DO NOTHING`; an error of `db.Exec` is returned. -/
def AddLike (db : DB) (like : Like) : DB × Option String :=
  match db.nextFault with
  | (some err, db1) => (db1, some err)
  | (none, db1) =>
    if db1.likes.any (Like.isFor like.CommentId like.UserId) then (db1, none)
    else ({ db1 with likes := db1.likes ++ [like] }, none)

/-- Method `forumRepo.DeleteLike`: `DELETE FROM likes WHERE comment_id = $1 AND
user_id = $2`; an error of `db.Exec` or of `result.RowsAffected` is returned, and
zero affected rows give the error `like not found`. -/
def DeleteLike (db : DB) (like : Like) : DB × Option String :=
  match db.nextFault with
  | (some err, db1) => (db1, some err)
  | (none, db1) =>
    let rowsAffected := (db1.likes.filter (Like.isFor like.CommentId like.UserId)).length
    let db2 := { db1 with likes := db1.likes.filter (fun r => !Like.isFor like.CommentId like.UserId r) }
    match db2.nextFault with
    | (some err, db3) => (db3, some err)
    | (none, db3) => if rowsAffected = 0 then (db3, some "like not found") else (db3, none)

/-- Method `forumRepo.AddDislike`: `INSERT INTO dislikes ... ON CONFLICT (comment_id,
user_id) DO NOTHING`; an error of `db.Exec` is returned. -/
def AddDislike (db : DB) (dislike : Dislike) : DB × Option String :=
  match db.nextFault with
  | (some err, db1) => (db1, some err)
  | (none, db1) =>
    if db1.dislikes.any (Dislike.isFor dislike.CommentId dislike.UserId) then (db1, none)
    else ({ db1 with dislikes := db1.dislikes ++ [dislike] }, none)

/-- Method `forumRepo.DeleteDislike`: `DELETE FROM dislikes WHERE comment_id = $1 AND
user_id = $2`; an error of `db.Exec` or of `result.RowsAffected` is returned, and
zero affected rows give the error `dislike not found`. -/
def DeleteDislike (db : DB) (dislike : Dislike) : DB × Option String :=
  match db.nextFault with
  | (some err, db1) => (db1, some err)
  | (none, db1) =>
    let rowsAffected := (db1.dislikes.filter (Dislike.isFor dislike.CommentId dislike.UserId)).length
    let db2 := { db1 with
      dislikes := db1.dislikes.filter (fun r => !Dislike.isFor dislike.CommentId dislike.UserId r) }
    match db2.nextFault with
    | (some err, db3) => (db3, some err)
    | (none, db3) => if rowsAffected = 0 then (db3, some "dislike not found") else (db3, none)

/-- Method `forumRepo.DeleteComment`: `UPDATE comments SET deleted = TRUE WHERE id =
$1`; an error of `db.Exec` is returned, the result of `db.Exec` is dropped. -/
def DeleteComment (db : DB) (commentId : UUID) : DB × Option String :=
  match db.nextFault with
  | (some err, db1) => (db1, some err)
  | (none, db1) =>
    let updated := db1.comments.map
      (fun r : Comment => if r.Id = commentId then ({ r with Deleted := true } : Comment) else r)
    ({ db1 with comments := updated }, none)

/-- Method `forumRepo.CountCommentsByArticle`: `SELECT COUNT(*) FROM comments WHERE
article_id = $1`; on an error of the scan the method logs a warning and returns
`0, nil`. -/
def CountCommentsByArticle (db : DB) (articleId : UUID) : DB × Nat × Option String :=
  match db.nextFault with
  | (some _, db1) => (db1, 0, none)
  | (none, db1) => (db1, (db1.comments.filter (fun r => r.ArticleId == articleId)).length, none)

/-- Method `forumRepo.CountLikes`: `SELECT COUNT(*) FROM likes WHERE comment_id = $1`;
on an error of the scan the method logs it and returns `0, nil`. -/
def CountLikes (db : DB) (commentId : UUID) : DB × Nat × Option String :=
  match db.nextFault with
  | (some _, db1) => (db1, 0, none)
  | (none, db1) => (db1, (db1.likes.filter (fun r => r.CommentId == commentId)).length, none)

/-- Method `forumRepo.CountDislikes`: `SELECT COUNT(*) FROM dislikes WHERE comment_id =
$1`; on an error of the scan the method returns `0, err`. -/
def CountDislikes (db : DB) (commentId : UUID) : DB × Nat × Option String :=
  match db.nextFault with
  | (some err, db1) => (db1, 0, some err)
  | (none, db1) => (db1, (db1.dislikes.filter (fun r => r.CommentId == commentId)).length, none)

/-- Method `forumRepo.AddComplaint`: `INSERT INTO complaints ... ON CONFLICT (comment_id,
user_id) DO UPDATE SET message = complaints.message || E'\n' || EXCLUDED.message`;
an error of `db.Exec` is returned. -/
def AddComplaint (db : DB) (complaint : Complaint) : DB × Option String :=
  match db.nextFault with
  | (some err, db1) => (db1, some err)
  | (none, db1) =>
    if db1.complaints.any (Complaint.isFor complaint.CommentId complaint.UserId) then
      let merged := db1.complaints.map (fun r : Complaint =>
        if Complaint.isFor complaint.CommentId complaint.UserId r then
          ({ r with Message := r.Message ++ "\n" ++ complaint.Message } : Complaint)
        else r)
      ({ db1 with complaints := merged }, none)
    else ({ db1 with complaints := db1.complaints ++ [complaint] }, none)

/-- Method `forumRepo.DeleteComplaint`: `DELETE FROM complaints WHERE id = $1`; an
error of `db.Exec` or of `result.RowsAffected` is returned, and zero affected rows
give the error `complaint not found`. -/
def DeleteComplaint (db : DB) (id : UUID) : DB × Option String :=
  match db.nextFault with
  | (some err, db1) => (db1, some err)
  | (none, db1) =>
    let rowsAffected := (db1.complaints.filter (fun r => r.Id == id)).length
    let db2 := { db1 with complaints := db1.complaints.filter (fun r => !(r.Id == id)) }
    match db2.nextFault with
    | (some err, db3) => (db3, some err)
    | (none, db3) => if rowsAffected = 0 then (db3, some "complaint not found") else (db3, none)

/-- Method `forumRepo.CountComplaints`: `SELECT COUNT(*) FROM complaints WHERE
comment_id = $1`; on an error of the scan the method returns `0, err`. -/
def CountComplaints (db : DB) (commentId : UUID) : DB × Nat × Option String :=
  match db.nextFault with
  | (some err, db1) => (db1, 0, some err)
  | (none, db1) =>
    (db1, (db1.complaints.filter (fun r => r.CommentId == commentId)).length, none)

/-- The loop `for rows.Next() { ... rows.Scan(...) ... }` over the rows a query
selected, `acc` being the comments appended so far. When `rows.Next` fails the loop
ends as at the last row (the method never asks `rows.Err`); an error of `rows.Scan`
is returned with no comments. -/
def scanRows (db : DB) (acc : List Comment) : List Comment → DB × List Comment × Option String
  | [] => (db, acc, none)
  | row :: rows =>
    match db.nextFault with
    | (some _, db1) => (db1, acc, none)
    | (none, db1) =>
      match db1.nextFault with
      | (some err, db2) => (db2, [], some err)
      | (none, db2) => scanRows db2 (acc ++ [row]) rows

/-- Method `forumRepo.FindCommentsByArticle`: `SELECT ... FROM comments WHERE
article_id = $1 AND deleted = FALSE ORDER by created DESC`, then the loop over the
rows; an error of `db.Query` is returned. Rows of equal `created` keep the order of
the table, which SQL leaves open. -/
def FindCommentsByArticle (db : DB) (articleId : UUID) : DB × List Comment × Option String :=
  match db.nextFault with
  | (some err, db1) => (db1, [], some err)
  | (none, db1) =>
    scanRows db1 []
      ((db1.comments.filter (fun r => r.ArticleId == articleId && !r.Deleted)).insertionSort
        (fun x y : Comment => y.Created ≤ x.Created))

end postgres

/-- The part of the interface `postgres.ForumRepo` the operations of the service
modelled here call, over a repository state `σ`: each method takes the state and
returns the new state with its results, the `error` last. -/
structure ForumRepo (σ : Type) where
  AddLike : σ → Like → σ × Option String
  DeleteLike : σ → Like → σ × Option String
  AddDislike : σ → Dislike → σ × Option String
  DeleteDislike : σ → Dislike → σ × Option String
  DeleteComment : σ → UUID → σ × Option String
  CountCommentsByArticle : σ → UUID → σ × Nat × Option String
  CountLikes : σ → UUID → σ × Nat × Option String
  CountDislikes : σ → UUID → σ × Nat × Option String
  AddComplaint : σ → Complaint → σ × Option String
  DeleteComplaint : σ → UUID → σ × Option String
  CountComplaints : σ → UUID → σ × Nat × Option String
  FindCommentsByArticle : σ → UUID → σ × List Comment × Option String

/-- Constructor `postgres.NewForum`: the repository over the database. -/
def postgres.NewForum : ForumRepo DB where
  AddLike := postgres.AddLike
  DeleteLike := postgres.DeleteLike
  AddDislike := postgres.AddDislike
  DeleteDislike := postgres.DeleteDislike
  DeleteComment := postgres.DeleteComment
  CountCommentsByArticle := postgres.CountCommentsByArticle
  CountLikes := postgres.CountLikes
  CountDislikes := postgres.CountDislikes
  AddComplaint := postgres.AddComplaint
  DeleteComplaint := postgres.DeleteComplaint
  CountComplaints := postgres.CountComplaints
  FindCommentsByArticle := postgres.FindCommentsByArticle

/-! ## services/forum_service.go: the reaction coordinator -/

namespace service

variable {σ : Type}

/-- Method `forum.AddLike` of the service. -/
def AddLike (repo : ForumRepo σ) (s : σ) (like : Like) : σ × Option String :=
  let dislike : Dislike := { CommentId := like.CommentId, UserId := like.UserId }
  match repo.DeleteDislike s dislike with
  | (s1, some err) =>
    if err ≠ "dislike not found" then (s1, some err) else repo.AddLike s1 like
  | (s1, none) => repo.AddLike s1 like

/-- Method `forum.DeleteLike` of the service. -/
def DeleteLike (repo : ForumRepo σ) (s : σ) (like : Like) : σ × Option String :=
  repo.DeleteLike s like

/-- Method `forum.AddDislike` of the service. -/
def AddDislike (repo : ForumRepo σ) (s : σ) (dislike : Dislike) : σ × Option String :=
  let like : Like := { CommentId := dislike.CommentId, UserId := dislike.UserId }
  match repo.DeleteLike s like with
  | (s1, some err) =>
    if err ≠ "like not found" then (s1, some err) else repo.AddDislike s1 dislike
  | (s1, none) => repo.AddDislike s1 dislike

/-- Method `forum.DeleteDislike` of the service. -/
def DeleteDislike (repo : ForumRepo σ) (s : σ) (dislike : Dislike) : σ × Option String :=
  repo.DeleteDislike s dislike

/-- Method `forum.DeleteComment` of the service. -/
def DeleteComment (repo : ForumRepo σ) (s : σ) (commentId : UUID) : σ × Option String :=
  repo.DeleteComment s commentId

/-- Method `forum.CountCommentsByArticle` of the service. -/
def CountCommentsByArticle (repo : ForumRepo σ) (s : σ) (articleId : UUID) :
    σ × Nat × Option String :=
  repo.CountCommentsByArticle s articleId

/-- Method `forum.CountLikes` of the service. -/
def CountLikes (repo : ForumRepo σ) (s : σ) (commentId : UUID) : σ × Nat × Option String :=
  repo.CountLikes s commentId

/-- Method `forum.CountDislikes` of the service. -/
def CountDislikes (repo : ForumRepo σ) (s : σ) (commentId : UUID) : σ × Nat × Option String :=
  repo.CountDislikes s commentId

/-- Method `forum.AddComplaint` of the service. -/
def AddComplaint (repo : ForumRepo σ) (s : σ) (complaint : Complaint) : σ × Option String :=
  repo.AddComplaint s complaint

/-- Method `forum.DeleteComplaint` of the service. -/
def DeleteComplaint (repo : ForumRepo σ) (s : σ) (id : UUID) : σ × Option String :=
  repo.DeleteComplaint s id

/-- Method `forum.CountComplaints` of the service. -/
def CountComplaints (repo : ForumRepo σ) (s : σ) (commentId : UUID) :
    σ × Nat × Option String :=
  repo.CountComplaints s commentId

/-- Method `forum.FindCommentsByArticle` of the service. -/
def FindCommentsByArticle (repo : ForumRepo σ) (s : σ) (articleId : UUID) :
    σ × List Comment × Option String :=
  repo.FindCommentsByArticle s articleId

end service

/-- A call of one of the four reaction operations of the service. -/
inductive ReactionOp where
  | addLike (like : Like)
  | deleteLike (like : Like)
  | addDislike (dislike : Dislike)
  | deleteDislike (dislike : Dislike)
deriving DecidableEq, Repr

/-- Executes one operation of the service on the database; the error goes to the
caller and is not part of the state. -/
def ReactionOp.run (db : DB) : ReactionOp → DB
  | .addLike l => (service.AddLike postgres.NewForum db l).1
  | .deleteLike l => (service.DeleteLike postgres.NewForum db l).1
  | .addDislike d => (service.AddDislike postgres.NewForum db d).1
  | .deleteDislike d => (service.DeleteDislike postgres.NewForum db d).1

/-- Executes a sequence of operations of the service one after the other. -/
def runOps (db : DB) (ops : List ReactionOp) : DB := ops.foldl ReactionOp.run db

/-- Number of rows of `likes` for the pair `(c, u)`. -/
def DB.likeCount (db : DB) (c u : UUID) : Nat := (db.likes.filter (Like.isFor c u)).length

/-- Number of rows of `dislikes` for the pair `(c, u)`. -/
def DB.dislikeCount (db : DB) (c u : UUID) : Nat :=
  (db.dislikes.filter (Dislike.isFor c u)).length

/-- The constraint `UNIQUE (comment_id, user_id)` of both tables. -/
def DB.Unique (db : DB) : Prop :=
  ∀ c u, db.likeCount c u ≤ 1 ∧ db.dislikeCount c u ≤ 1

/-- No pair `(comment, user)` has a like row and a dislike row at once. -/
def DB.Exclusive (db : DB) : Prop :=
  ∀ c u, db.likeCount c u = 0 ∨ db.dislikeCount c u = 0

/-- The errors the driver reports are its own: none of them carries one of the two
texts the repository produces for zero affected rows. -/
def DB.DriverErrors (db : DB) : Prop :=
  ∀ e, some e ∈ db.faults → e ≠ "like not found" ∧ e ≠ "dislike not found"

/-! ### Views of a forest used to state properties -/

mutual
/-- The nodes of a tree at every depth, the node itself first. -/
def CommentNode.subtree : CommentNode → List CommentNode
  | .mk id c cs => .mk id c cs :: subtrees cs
/-- The nodes of a forest at every depth. -/
def subtrees : List CommentNode → List CommentNode
  | [] => []
  | n :: ns => n.subtree ++ subtrees ns
end

/-- The ids of all nodes of a forest, at every depth. -/
def forestIds (f : List CommentNode) : List UUID := (subtrees f).map CommentNode.ID

/-- The ids of the child list of a node. -/
def CommentNode.childIds (n : CommentNode) : List UUID := n.Childs.map CommentNode.ID

/-- The shape of a forest down to two levels: each root's id with the ids of its
children and, for each child, the length of its own child list. -/
def shape (f : List CommentNode) : List (UUID × List (UUID × Nat)) :=
  f.map (fun n => (n.ID, n.Childs.map (fun c => (c.ID, c.Childs.length))))

/-- The comments of the end-to-end example of the specification. -/
def exampleComments : List Comment :=
  [{ Id := 1, ThreadId := 1 }, { Id := 2, ThreadId := 1 }, { Id := 3, ThreadId := 3 }]

/-- A repository that only records the calls it receives: the state is the list of
the names of the methods called so far, and the two deletions return the given
error. -/
def recordingRepo (deleteError : Option String) : ForumRepo (List String) where
  AddLike := fun calls _ => (calls ++ ["AddLike"], none)
  DeleteLike := fun calls _ => (calls ++ ["DeleteLike"], deleteError)
  AddDislike := fun calls _ => (calls ++ ["AddDislike"], none)
  DeleteDislike := fun calls _ => (calls ++ ["DeleteDislike"], deleteError)
  DeleteComment := fun calls _ => (calls ++ ["DeleteComment"], none)
  CountCommentsByArticle := fun calls _ => (calls ++ ["CountCommentsByArticle"], 0, none)
  CountLikes := fun calls _ => (calls ++ ["CountLikes"], 0, none)
  CountDislikes := fun calls _ => (calls ++ ["CountDislikes"], 0, none)
  AddComplaint := fun calls _ => (calls ++ ["AddComplaint"], none)
  DeleteComplaint := fun calls _ => (calls ++ ["DeleteComplaint"], deleteError)
  CountComplaints := fun calls _ => (calls ++ ["CountComplaints"], 0, none)
  FindCommentsByArticle := fun calls _ => (calls ++ ["FindCommentsByArticle"], [], none)

/-- The constraint `PRIMARY KEY (id)` of the table `comments`. -/
def DB.CommentKeys (db : DB) : Prop :=
  ∀ id, (db.comments.filter (fun r => r.Id == id)).length ≤ 1

/-- The constraint `PRIMARY KEY (id)` of the table `complaints`. -/
def DB.ComplaintKeys (db : DB) : Prop :=
  ∀ id, (db.complaints.filter (fun r => r.Id == id)).length ≤ 1

/-- A call of the repository made by `AddLike` or `AddDislike` of the service: one
statement on one table. -/
inductive SwitchStep where
  | deleteDislike (dislike : Dislike)
  | insertLike (like : Like)
  | deleteLike (like : Like)
  | insertDislike (dislike : Dislike)
deriving DecidableEq, Repr

/-- Executes one call of the repository; its error is dropped, as the service drops
the error of a deletion that found no row. -/
def SwitchStep.run (db : DB) : SwitchStep → DB
  | .deleteDislike d => (postgres.DeleteDislike db d).1
  | .insertLike l => (postgres.AddLike db l).1
  | .deleteLike l => (postgres.DeleteLike db l).1
  | .insertDislike d => (postgres.AddDislike db d).1

/-- Executes calls of the repository one after the other. -/
def runSteps (db : DB) (steps : List SwitchStep) : DB := steps.foldl SwitchStep.run db

/-- The two calls `AddLike` of the service makes: delete the dislike, insert the
like. -/
def AddLikeSteps (like : Like) : List SwitchStep :=
  [.deleteDislike { CommentId := like.CommentId, UserId := like.UserId }, .insertLike like]

/-- The two calls `AddDislike` of the service makes: delete the like, insert the
dislike. -/
def AddDislikeSteps (dislike : Dislike) : List SwitchStep :=
  [.deleteLike { CommentId := dislike.CommentId, UserId := dislike.UserId },
    .insertDislike dislike]

/-- The schedules of two sequences of steps: every step of both, each sequence in
its own order. -/
inductive Interleaving {α : Type} : List α → List α → List α → Prop where
  | nil : Interleaving [] [] []
  | left (x : α) {xs ys zs : List α} :
      Interleaving xs ys zs → Interleaving (x :: xs) ys (x :: zs)
  | right (y : α) {xs ys zs : List α} :
      Interleaving xs ys zs → Interleaving xs (y :: ys) (y :: zs)

/-- The ids, at every depth, in the child lists of the map's nodes of the comments
still to be grouped: the ids that can still reach the forest through a later copy. -/
def pendingIds (m : CommentMap) : List Comment → List UUID
  | [] => []
  | c :: rest =>
    (match m c.Id with
      | some n => forestIds n.Childs
      | none => []) ++ pendingIds m rest

/-- A node without children for the comment `d`, as the first loop creates it. -/
def leafNode (loopvar : Bool) (res : List Comment) (d : Comment) : CommentNode :=
  .mk d.Id (pointee loopvar res d) []

/-- The node of the thread root `c` with, as children, the comments of its thread
among `earlier`, the comments that precede it in the input, in their order. -/
def rootNode (loopvar : Bool) (res earlier : List Comment) (c : Comment) : CommentNode :=
  .mk c.Id (pointee loopvar res c)
    ((earlier.filter (fun d => d.ThreadId == c.Id)).map (leafNode loopvar res))

/-- The forest described for the remaining comments of an input `res`, `earlier`
being the comments before them: one node per thread root, in input order. -/
def expectedFrom (loopvar : Bool) (res : List Comment) :
    List Comment → List Comment → List CommentNode
  | _, [] => []
  | earlier, c :: rest =>
    if c.ThreadId = c.Id then
      rootNode loopvar res earlier c :: expectedFrom loopvar res (earlier ++ [c]) rest
    else expectedFrom loopvar res (earlier ++ [c]) rest

/-- The forest described for an input: the thread roots in input order, each with
the comments of its thread that occur earlier in the input than the root, in input
order, as children without children. -/
def expectedForest (loopvar : Bool) (res : List Comment) : List CommentNode :=
  expectedFrom loopvar res [] res

/-- The map holds a node under its own id for every key it has, and it has a key
for every comment still to be grouped. -/
def MapOk (m : CommentMap) (rest : List Comment) : Prop :=
  (∀ k n, m k = some n → n.ID = k) ∧ ∀ c ∈ rest, ∃ n, m c.Id = some n

/-! ## Forest builder: lemmas -/

theorem subtree_eq (n : CommentNode) : n.subtree = n :: subtrees n.Childs := by
  cases n; simp [CommentNode.subtree, CommentNode.Childs]

theorem subtrees_append (a b : List CommentNode) :
    subtrees (a ++ b) = subtrees a ++ subtrees b := by
  induction a with
  | nil => simp [subtrees]
  | cons n ns ih => simp [subtrees, ih, List.append_assoc]

theorem subtrees_singleton (n : CommentNode) : subtrees [n] = n :: subtrees n.Childs := by
  simp [subtrees, subtree_eq]

theorem forestIds_append (a b : List CommentNode) :
    forestIds (a ++ b) = forestIds a ++ forestIds b := by
  simp [forestIds, subtrees_append]

theorem forestIds_singleton (n : CommentNode) :
    forestIds [n] = n.ID :: forestIds n.Childs := by
  simp [forestIds, subtrees_singleton]

theorem CommentMap.set_same (m : CommentMap) (k : UUID) (n : CommentNode) :
    m.set k n k = some n := by
  simp [CommentMap.set]

theorem CommentMap.set_other (m : CommentMap) (k j : UUID) (n : CommentNode) (h : j ≠ k) :
    m.set k n j = m j := by
  simp [CommentMap.set, h]

/-- The first loop leaves, under every id of the input, a node with that id and no
children, and no entry under any other key. -/
theorem firstPass_fold (f : Comment → Comment) (res : List Comment) (m0 : CommentMap) (k : UUID) :
    (k ∈ res.map Comment.Id →
      ∃ c, res.foldl (fun m val => m.set val.Id (.mk val.Id (f val) [])) m0 k = some (.mk k c [])) ∧
    (k ∉ res.map Comment.Id →
      res.foldl (fun m val => m.set val.Id (.mk val.Id (f val) [])) m0 k = m0 k) := by
  induction res using List.reverseRecOn with
  | nil => simp
  | append_singleton l a ih =>
    simp only [List.foldl_append, List.foldl_cons, List.foldl_nil, List.map_append, List.map_cons,
      List.map_nil, List.mem_append, List.mem_singleton]
    by_cases hk : k = a.Id
    · subst hk
      refine ⟨fun _ => ⟨f a, by simp [CommentMap.set]⟩, fun h => absurd (Or.inr rfl) h⟩
    · rw [CommentMap.set_other _ _ _ _ hk]
      refine ⟨fun h => ?_, fun h => ?_⟩
      · rcases h with h | h
        · exact ih.1 h
        · exact absurd h hk
      · exact ih.2 (fun h' => h (Or.inl h'))

theorem firstPass_mem (loopvar : Bool) (res : List Comment) (k : UUID)
    (hk : k ∈ res.map Comment.Id) : ∃ c, firstPass loopvar res k = some (.mk k c []) :=
  (firstPass_fold (pointee loopvar res) res (fun _ => none) k).1 hk

theorem firstPass_not_mem (loopvar : Bool) (res : List Comment) (k : UUID)
    (hk : k ∉ res.map Comment.Id) : firstPass loopvar res k = none :=
  (firstPass_fold (pointee loopvar res) res (fun _ => none) k).2 hk

theorem firstPass_ok (loopvar : Bool) (res : List Comment) : MapOk (firstPass loopvar res) res := by
  constructor
  · intro k n h
    by_cases hk : k ∈ res.map Comment.Id
    · obtain ⟨c, hc⟩ := firstPass_mem loopvar res k hk
      rw [hc] at h
      cases h
      rfl
    · rw [firstPass_not_mem loopvar res k hk] at h
      cases h
  · intro c hc
    obtain ⟨c', h⟩ := firstPass_mem loopvar res c.Id (List.mem_map_of_mem _ hc)
    exact ⟨_, h⟩

/-- The three ways one round of the second loop can go when the comment has its
entry in the map. -/
theorem groupStep_cases (m : CommentMap) (roots : List CommentNode) (val : Comment)
    (node : CommentNode) (h : m val.Id = some node) :
    (val.ThreadId = val.Id ∧ groupStep m roots val = some (m, roots ++ [node])) ∨
    (val.ThreadId ≠ val.Id ∧ ∃ p, m val.ThreadId = some p ∧
      groupStep m roots val
        = some (m.set val.ThreadId (.mk p.ID p.Comment (p.Childs ++ [node])), roots)) ∨
    (val.ThreadId ≠ val.Id ∧ m val.ThreadId = none ∧
      groupStep m roots val = some (m, roots ++ [node])) := by
  by_cases ht : val.ThreadId = val.Id
  · left
    exact ⟨ht, by simp [groupStep, ht, h]⟩
  · right
    cases hp : m val.ThreadId with
    | none => right; exact ⟨ht, rfl, by simp [groupStep, ht, h, hp]⟩
    | some p => left; exact ⟨ht, p, rfl, by simp [groupStep, ht, h, hp]⟩

/-- Appending a child to the node of a present key keeps the map in order. -/
theorem MapOk.set_parent {m : CommentMap} {rest : List Comment} (h : MapOk m rest) {k : UUID}
    {p : CommentNode} (hp : m k = some p) (cs : List CommentNode) :
    MapOk (m.set k (.mk p.ID p.Comment cs)) rest := by
  constructor
  · intro j n hj
    by_cases hjk : j = k
    · subst hjk
      rw [CommentMap.set_same] at hj
      cases hj
      exact h.1 j p hp
    · rw [CommentMap.set_other _ _ _ _ hjk] at hj
      exact h.1 _ _ hj
  · intro c hc
    by_cases hjk : c.Id = k
    · exact ⟨_, by rw [hjk, CommentMap.set_same]⟩
    · rw [CommentMap.set_other _ _ _ _ hjk]
      exact h.2 c hc

theorem MapOk.tail {m : CommentMap} {val : Comment} {rest : List Comment}
    (h : MapOk m (val :: rest)) : MapOk m rest :=
  ⟨h.1, fun c hc => h.2 c (List.mem_cons_of_mem _ hc)⟩

/-- Invariant rule for the second loop: a property of the map, the roots and the
comments still to come that every round re-establishes holds when the loop ends,
and the loop does end without a panic. -/
theorem groupLoop_invariant (P : CommentMap → List CommentNode → List Comment → Prop)
    (hstep : ∀ m roots val rest, P m roots (val :: rest) →
      ∃ st, groupStep m roots val = some st ∧ P st.1 st.2 rest) :
    ∀ rest m roots, P m roots rest →
      ∃ st, groupLoop m roots rest = some st ∧ P st.1 st.2 [] := by
  intro rest
  induction rest with
  | nil => intro m roots h; exact ⟨(m, roots), rfl, h⟩
  | cons val rest ih =>
    intro m roots h
    obtain ⟨st, hst, hP⟩ := hstep m roots val rest h
    obtain ⟨st', hst', hP'⟩ := ih st.1 st.2 hP
    exact ⟨st', by simp [groupLoop, hst, hst'], hP'⟩

/-- What the handler returns, from the final state of the second loop. -/
theorem FindComments_of_groupLoop {loopvar : Bool} {res : List Comment}
    {st : CommentMap × List CommentNode}
    (h : groupLoop (firstPass loopvar res) [] res = some st) :
    FindComments loopvar res = some { comments := st.2, count := res.length } := by
  simp [FindComments, h]

theorem mem_subtree_iff (n x : CommentNode) :
    x ∈ n.subtree ↔ x = n ∨ x ∈ subtrees n.Childs := by
  rw [subtree_eq, List.mem_cons]

theorem mem_subtrees_append_singleton (roots : List CommentNode) (n x : CommentNode) :
    x ∈ subtrees (roots ++ [n]) ↔ x ∈ subtrees roots ∨ x ∈ n.subtree := by
  rw [subtrees_append, List.mem_append, subtrees_singleton, subtree_eq]

/-- Two different members of a list occur in it in one order or the other. -/
theorem pair_sublist_or {α : Type} (l : List α) (a b : α) (ha : a ∈ l) (hb : b ∈ l)
    (hab : a ≠ b) : [a, b] <+ l ∨ [b, a] <+ l := by
  induction l with
  | nil => cases ha
  | cons x xs ih =>
    rcases List.mem_cons.1 ha with rfl | ha'
    · rcases List.mem_cons.1 hb with rfl | hb'
      · exact absurd rfl hab
      · exact Or.inl (List.Sublist.cons₂ _ (List.singleton_sublist.2 hb'))
    · rcases List.mem_cons.1 hb with rfl | hb'
      · exact Or.inr (List.Sublist.cons₂ _ (List.singleton_sublist.2 ha'))
      · rcases ih ha' hb' with h | h
        · exact Or.inl (h.cons _)
        · exact Or.inr (h.cons _)

/-- In a list without repetition two members occur in one order only. -/
theorem pair_sublist_asymm {α : Type} (l : List α) (a b : α) (hnd : l.Nodup)
    (h1 : [a, b] <+ l) : ¬ [b, a] <+ l := by
  induction l with
  | nil => cases h1
  | cons x xs ih =>
    intro h2
    have hx : x ∉ xs := (List.nodup_cons.1 hnd).1
    have hxs : xs.Nodup := (List.nodup_cons.1 hnd).2
    cases h1 with
    | cons _ h1' =>
      cases h2 with
      | cons _ h2' => exact ih hxs h1' h2'
      | cons₂ _ h2' => exact hx (h1'.subset (by simp))
    | cons₂ _ h1' =>
      cases h2 with
      | cons _ h2' => exact hx (h2'.subset (by simp))
      | cons₂ _ h2' => exact hx (List.singleton_sublist.1 h1')

/-! ## Forest builder: the claims -/

/-- C1: on the comments `[{id 1, thread 1}, {id 2, thread 1}, {id 3, thread 3}]`, in
that order, `FindComments` and `FindCommentsByArticle` both return the roots 1 and 3
with an empty child list each and the count 3: the reply 2 is in no child list, so
the forest is not the `[{1, children [2]}, {3, children []}]` of the specification. -/
theorem C1_example_forest_loses_reply (loopvar : Bool) :
    (FindComments loopvar exampleComments).map (fun r => (shape r.comments, r.count))
      = some ([(1, []), (3, [])], 3) ∧
    (FindCommentsByArticle loopvar exampleComments).map (fun r => (shape r.comments, r.count))
      = some ([(1, []), (3, [])], 3) ∧
    (FindComments loopvar exampleComments).map (fun r => forestIds r.comments) = some [1, 3] ∧
    (FindComments loopvar exampleComments).map (fun r => shape r.comments)
      ≠ some [(1, [(2, 0)]), (3, [])] := by
  cases loopvar <;> exact ⟨by decide, by decide, by decide, by decide⟩

/-- C3: a comment of the input whose thread id is not its own id and is the id of
no comment of the input has a node at the root level of the forest, and the build
returns a forest. -/
theorem C3_orphan_is_root (loopvar : Bool) (res : List Comment) (C : Comment)
    (hC : C ∈ res) (hne : C.ThreadId ≠ C.Id) (horphan : ∀ p ∈ res, p.Id ≠ C.ThreadId) :
    ∃ r, FindComments loopvar res = some r ∧ ∃ n ∈ r.comments, n.ID = C.Id := by
  have hnone : firstPass loopvar res C.ThreadId = none := by
    apply firstPass_not_mem
    intro h
    obtain ⟨p, hp, hpe⟩ := List.mem_map.1 h
    exact horphan p hp hpe
  obtain ⟨st, hst, -, -, hfin⟩ := groupLoop_invariant
    (fun m roots rest => MapOk m rest ∧ m C.ThreadId = none ∧
      (C ∈ rest ∨ ∃ n ∈ roots, n.ID = C.Id))
    (by
      intro m roots val rest ⟨hok, hno, hpos⟩
      obtain ⟨node, hnode⟩ := hok.2 val (List.mem_cons_self _ _)
      have hid : node.ID = val.Id := hok.1 _ _ hnode
      rcases groupStep_cases m roots val node hnode with ⟨ht, hs⟩ | ⟨ht, p, hp, hs⟩ | ⟨ht, hp, hs⟩
      · refine ⟨_, hs, hok.tail, hno, ?_⟩
        rcases hpos with h | ⟨n, hn, hne'⟩
        · rcases List.mem_cons.1 h with h | h
          · subst h; exact absurd ht hne
          · exact Or.inl h
        · exact Or.inr ⟨n, List.mem_append_left _ hn, hne'⟩
      · have hk : C.ThreadId ≠ val.ThreadId := by
          intro h
          rw [h, hp] at hno
          cases hno
        refine ⟨_, hs, hok.tail.set_parent hp _, ?_, ?_⟩
        · show (m.set _ _) C.ThreadId = none
          rw [CommentMap.set_other _ _ _ _ hk]
          exact hno
        · rcases hpos with h | h
          · rcases List.mem_cons.1 h with h | h
            · subst h; exact absurd rfl hk
            · exact Or.inl h
          · exact Or.inr h
      · refine ⟨_, hs, hok.tail, hno, ?_⟩
        rcases hpos with h | ⟨n, hn, hne'⟩
        · rcases List.mem_cons.1 h with h | h
          · subst h
            exact Or.inr ⟨node, by simp, hid⟩
          · exact Or.inl h
        · exact Or.inr ⟨n, List.mem_append_left _ hn, hne'⟩)
    res (firstPass loopvar res) [] ⟨firstPass_ok loopvar res, hnone, Or.inl hC⟩
  refine ⟨_, FindComments_of_groupLoop hst, ?_⟩
  rcases hfin with h | h
  · cases h
  · exact h

/-- C3 at an input: comment 5 names thread 9, which no comment of the input has. -/
theorem C3_orphan_is_root_witness :
    ∃ r, FindComments true [{ Id := 1, ThreadId := 1 }, { Id := 5, ThreadId := 9 }] = some r ∧
      ∃ n ∈ r.comments, n.ID = 5 :=
  C3_orphan_is_root true [{ Id := 1, ThreadId := 1 }, { Id := 5, ThreadId := 9 }]
    { Id := 5, ThreadId := 9 } (by decide) (by decide) (by decide)

/-- C4: with distinct ids in the input, the ids of the child list of every node of
the forest, at every depth, are a subsequence of the ids of the input; so when
comment A precedes comment B in the input and both ids are in one child list, A's
id precedes B's id in that list. -/
theorem C4_children_in_input_order (loopvar : Bool) (res : List Comment)
    (hnd : (res.map Comment.Id).Nodup) :
    ∃ r, FindComments loopvar res = some r ∧ ∀ n ∈ subtrees r.comments,
      n.childIds <+ res.map Comment.Id ∧
      ∀ A B : Comment, [A, B] <+ res → A.Id ∈ n.childIds → B.Id ∈ n.childIds →
        [A.Id, B.Id] <+ n.childIds := by
  obtain ⟨st, hst, done, hdone, -, -, hroots⟩ := groupLoop_invariant
    (fun m roots rest => ∃ done, done ++ rest.map Comment.Id = res.map Comment.Id ∧
      MapOk m rest ∧ (∀ k n, m k = some n → ∀ x ∈ n.subtree, x.childIds <+ done) ∧
      ∀ x ∈ subtrees roots, x.childIds <+ done)
    (by
      intro m roots val rest ⟨done, hdone, hok, hmap, hroots⟩
      obtain ⟨node, hnode⟩ := hok.2 val (List.mem_cons_self _ _)
      have hid : node.ID = val.Id := hok.1 _ _ hnode
      have hmono : ∀ l : List UUID, l <+ done → l <+ done ++ [val.Id] :=
        fun l hl => hl.trans (List.sublist_append_left _ _)
      have hdone' : (done ++ [val.Id]) ++ rest.map Comment.Id = res.map Comment.Id := by
        rw [← hdone]; simp
      have hgrow : ∀ x, x ∈ subtrees (roots ++ [node]) → x.childIds <+ done ++ [val.Id] := by
        intro x hx
        rcases (mem_subtrees_append_singleton _ _ _).1 hx with h | h
        · exact hmono _ (hroots x h)
        · exact hmono _ (hmap _ _ hnode x h)
      rcases groupStep_cases m roots val node hnode with ⟨-, hs⟩ | ⟨-, p, hp, hs⟩ | ⟨-, -, hs⟩
      · exact ⟨_, hs, done ++ [val.Id], hdone', hok.tail,
          fun k n hk x hx => hmono _ (hmap k n hk x hx), hgrow⟩
      · refine ⟨_, hs, done ++ [val.Id], hdone', hok.tail.set_parent hp _, ?_,
          fun x hx => hmono _ (hroots x hx)⟩
        intro k n hk x hx
        dsimp only at hk
        by_cases hkk : k = val.ThreadId
        · subst hkk
          rw [show (m.set val.ThreadId (.mk p.ID p.Comment (p.Childs ++ [node]))) val.ThreadId
            = some (.mk p.ID p.Comment (p.Childs ++ [node])) from CommentMap.set_same _ _ _] at hk
          cases hk
          rcases (mem_subtree_iff _ _).1 hx with rfl | hx'
          · have hpc : p.childIds <+ done := hmap _ _ hp p ((mem_subtree_iff _ _).2 (Or.inl rfl))
            have : (CommentNode.mk p.ID p.Comment (p.Childs ++ [node])).childIds
                = p.childIds ++ [val.Id] := by
              simp [CommentNode.childIds, CommentNode.Childs, hid]
            rw [this]
            exact hpc.append (List.Sublist.refl _)
          · have hx'' : x ∈ subtrees (p.Childs ++ [node]) := hx'
            rcases (mem_subtrees_append_singleton _ _ _).1 hx'' with h | h
            · exact hmono _ (hmap _ _ hp x ((mem_subtree_iff _ _).2 (Or.inr h)))
            · exact hmono _ (hmap _ _ hnode x h)
        · rw [show (m.set val.ThreadId (.mk p.ID p.Comment (p.Childs ++ [node]))) k = m k from
            CommentMap.set_other _ _ _ _ hkk] at hk
          exact hmono _ (hmap k n hk x hx)
      · exact ⟨_, hs, done ++ [val.Id], hdone', hok.tail,
          fun k n hk x hx => hmono _ (hmap k n hk x hx), hgrow⟩)
    res (firstPass loopvar res) []
    ⟨[], by simp, firstPass_ok loopvar res, (by
      intro k n hk x hx
      by_cases hmem : k ∈ res.map Comment.Id
      · obtain ⟨c, hc⟩ := firstPass_mem loopvar res k hmem
        rw [hc] at hk
        cases hk
        simp [CommentNode.subtree, subtrees] at hx
        subst hx
        simp [CommentNode.childIds, CommentNode.Childs]
      · rw [firstPass_not_mem loopvar res k hmem] at hk
        cases hk), by simp [subtrees]⟩
  have hall : done = res.map Comment.Id := by simpa using hdone
  subst hall
  refine ⟨_, FindComments_of_groupLoop hst, fun n hn => ⟨hroots n hn, ?_⟩⟩
  intro A B hAB hA hB
  have hsub : [A.Id, B.Id] <+ res.map Comment.Id := by simpa using hAB.map Comment.Id
  have hne : A.Id ≠ B.Id := by
    intro h
    rw [h] at hsub
    have h2 := hsub.nodup hnd
    simp at h2
  rcases pair_sublist_or _ _ _ hA hB hne with h | h
  · exact h
  · exact absurd (h.trans (hroots n hn)) (pair_sublist_asymm _ _ _ hnd hsub)

/-- C4 at an input: the replies 2 and 3 precede their thread root 1. -/
theorem C4_children_in_input_order_witness :
    ∃ r, FindComments true [{ Id := 2, ThreadId := 1 }, { Id := 3, ThreadId := 1 },
        { Id := 1, ThreadId := 1 }] = some r ∧ ∀ n ∈ subtrees r.comments,
      n.childIds <+ [2, 3, 1] ∧
      ∀ A B : Comment, [A, B] <+ [{ Id := 2, ThreadId := 1 }, { Id := 3, ThreadId := 1 },
          ({ Id := 1, ThreadId := 1 } : Comment)] →
        A.Id ∈ n.childIds → B.Id ∈ n.childIds → [A.Id, B.Id] <+ n.childIds :=
  C4_children_in_input_order true [{ Id := 2, ThreadId := 1 }, { Id := 3, ThreadId := 1 },
    { Id := 1, ThreadId := 1 }] (by decide)

/-- C5: with distinct ids in the input, when the comment C with `thread_id == P.id`
precedes the thread root P (`thread_id == id`) in the input, the forest has a
root-level node for P, and every root-level node with P's id (there is one) has a
node with C's id in its child list. -/
theorem C5_forward_reference (loopvar : Bool) (res : List Comment) (P C : Comment)
    (hnd : (res.map Comment.Id).Nodup) (hbefore : [C, P] <+ res)
    (hP : P.ThreadId = P.Id) (hC : C.ThreadId = P.Id) :
    ∃ r, FindComments loopvar res = some r ∧ (∃ n ∈ r.comments, n.ID = P.Id) ∧
      ∀ n ∈ r.comments, n.ID = P.Id → ∃ ch ∈ n.Childs, ch.ID = C.Id := by
  obtain ⟨st, hst, -, -, -, hfin⟩ := groupLoop_invariant
    (fun m roots rest => MapOk m rest ∧ (rest.map Comment.Id).Nodup ∧
      (∀ n ∈ roots, n.ID ∉ rest.map Comment.Id) ∧
      ([C, P] <+ rest ∨
       (P ∈ rest ∧ ∃ n, m P.Id = some n ∧ ∃ ch ∈ n.Childs, ch.ID = C.Id) ∨
       (P.Id ∉ rest.map Comment.Id ∧ (∃ n ∈ roots, n.ID = P.Id) ∧
          ∀ n ∈ roots, n.ID = P.Id → ∃ ch ∈ n.Childs, ch.ID = C.Id)))
    (by
      intro m roots val rest ⟨hok, hnd', hdisj, hphase⟩
      obtain ⟨node, hnode⟩ := hok.2 val (List.mem_cons_self _ _)
      have hid : node.ID = val.Id := hok.1 _ _ hnode
      have hv : val.Id ∉ rest.map Comment.Id := by
        have := hnd'
        rw [List.map_cons, List.nodup_cons] at this
        exact this.1
      have hndr : (rest.map Comment.Id).Nodup := by
        have := hnd'
        rw [List.map_cons, List.nodup_cons] at this
        exact this.2
      have hdisj1 : ∀ n ∈ roots, n.ID ∉ rest.map Comment.Id := by
        intro n hn h
        exact hdisj n hn (by rw [List.map_cons]; exact List.mem_cons_of_mem _ h)
      have hdisj2 : ∀ n ∈ roots ++ [node], n.ID ∉ rest.map Comment.Id := by
        intro n hn
        rcases List.mem_append.1 hn with h | h
        · exact hdisj1 n h
        · rw [List.mem_singleton.1 h, hid]; exact hv
      -- the roots gain `node`, the map stays
      have happend : ∀ st, st = (m, roots ++ [node]) → (val.ThreadId = val.Id ∨ m val.ThreadId = none) →
          ([C, P] <+ rest ∨
           (P ∈ rest ∧ ∃ n, st.1 P.Id = some n ∧ ∃ ch ∈ n.Childs, ch.ID = C.Id) ∨
           (P.Id ∉ rest.map Comment.Id ∧ (∃ n ∈ st.2, n.ID = P.Id) ∧
              ∀ n ∈ st.2, n.ID = P.Id → ∃ ch ∈ n.Childs, ch.ID = C.Id)) := by
        intro st hst hcase
        subst hst
        rcases hphase with h0 | ⟨hPm, n, hn, hch⟩ | ⟨hPn, hex, hall⟩
        · cases h0 with
          | cons _ h => exact Or.inl h
          | cons₂ _ h =>
            -- val is C, whose thread is P, an entry of the map, and not C itself
            have hPr : P ∈ rest := List.singleton_sublist.1 h
            exfalso
            rcases hcase with h1 | h1
            · exact hv (by rw [← h1, hC]; exact List.mem_map_of_mem _ hPr)
            · obtain ⟨pn, hpn⟩ := hok.2 P (List.mem_cons_of_mem _ hPr)
              rw [hC, hpn] at h1
              cases h1
        · by_cases hvP : val = P
          · subst hvP
            rw [hnode] at hn
            cases hn
            refine Or.inr (Or.inr ⟨hv, ⟨node, by simp, hid⟩, ?_⟩)
            intro n' hn' hid'
            rcases List.mem_append.1 hn' with h | h
            · exact absurd (by rw [hid', List.map_cons]; exact List.mem_cons_self _ _)
                (hdisj n' h)
            · rw [List.mem_singleton.1 h]; exact hch
          · rcases List.mem_cons.1 hPm with h | h
            · exact absurd h.symm hvP
            · exact Or.inr (Or.inl ⟨h, n, hn, hch⟩)
        · have hPv : P.Id ≠ val.Id := by
            intro h
            exact hPn (by rw [h, List.map_cons]; exact List.mem_cons_self _ _)
          have hPr : P.Id ∉ rest.map Comment.Id := by
            intro h
            exact hPn (by rw [List.map_cons]; exact List.mem_cons_of_mem _ h)
          obtain ⟨n0, hn0, hid0⟩ := hex
          refine Or.inr (Or.inr ⟨hPr, ⟨n0, List.mem_append_left _ hn0, hid0⟩, ?_⟩)
          intro n' hn' hid'
          rcases List.mem_append.1 hn' with h | h
          · exact hall n' h hid'
          · rw [List.mem_singleton.1 h, hid] at hid'
            exact absurd hid'.symm hPv
      rcases groupStep_cases m roots val node hnode with ⟨ht, hs⟩ | ⟨ht, p, hp, hs⟩ | ⟨ht, hp, hs⟩
      · exact ⟨_, hs, hok.tail, hndr, hdisj2, happend _ rfl (Or.inl ht)⟩
      · refine ⟨_, hs, hok.tail.set_parent hp _, hndr, hdisj1, ?_⟩
        dsimp only
        rcases hphase with h0 | ⟨hPm, n, hn, hch⟩ | ⟨hPn, hex, hall⟩
        · cases h0 with
          | cons _ h => exact Or.inl h
          | cons₂ _ h =>
            have hPr : P ∈ rest := List.singleton_sublist.1 h
            refine Or.inr (Or.inl ⟨hPr, _, by rw [← hC]; exact CommentMap.set_same _ _ _, node, ?_, ?_⟩)
            · simp [CommentNode.Childs]
            · exact hid
        · have hPr : P ∈ rest := by
            rcases List.mem_cons.1 hPm with h | h
            · exact absurd (h ▸ hP) ht
            · exact h
          by_cases hk : P.Id = val.ThreadId
          · rw [← hk, hn] at hp
            cases hp
            refine Or.inr (Or.inl ⟨hPr, _, by rw [hk]; exact CommentMap.set_same _ _ _, ?_⟩)
            obtain ⟨ch, hch1, hch2⟩ := hch
            exact ⟨ch, List.mem_append_left _ hch1, hch2⟩
          · exact Or.inr (Or.inl ⟨hPr, n, by rw [CommentMap.set_other _ _ _ _ hk]; exact hn, hch⟩)
        · have hPr : P.Id ∉ rest.map Comment.Id := by
            intro h
            exact hPn (by rw [List.map_cons]; exact List.mem_cons_of_mem _ h)
          exact Or.inr (Or.inr ⟨hPr, hex, hall⟩)
      · exact ⟨_, hs, hok.tail, hndr, hdisj2, happend _ rfl (Or.inr hp)⟩)
    res (firstPass loopvar res) []
    ⟨firstPass_ok loopvar res, hnd, by simp, Or.inl hbefore⟩
  refine ⟨_, FindComments_of_groupLoop hst, ?_⟩
  rcases hfin with h | ⟨h, -⟩ | ⟨-, h1, h2⟩
  · cases h
  · cases h
  · exact ⟨h1, h2⟩

/-- C5 at an input: the reply 2 precedes its thread root 1. -/
theorem C5_forward_reference_witness :
    ∃ r, FindComments true [{ Id := 2, ThreadId := 1 }, { Id := 1, ThreadId := 1 }] = some r ∧
      (∃ n ∈ r.comments, n.ID = 1) ∧
      ∀ n ∈ r.comments, n.ID = 1 → ∃ ch ∈ n.Childs, ch.ID = 2 :=
  C5_forward_reference true [{ Id := 2, ThreadId := 1 }, { Id := 1, ThreadId := 1 }]
    { Id := 1, ThreadId := 1 } { Id := 2, ThreadId := 1 } (by decide)
    (List.Sublist.refl _) rfl rfl

/-- C2: on the input `[{id 1, thread 1}, {id 2, thread 1}]` (distinct ids, every
thread id is the comment's own id or the id of another comment of the input) the
forest of `FindComments` has one node, the root 1, while the input has two
comments: the reply 2, which follows its thread root, is dropped. -/
theorem C2_reply_after_root_dropped (loopvar : Bool) :
    ([{ Id := 1, ThreadId := 1 }, { Id := 2, ThreadId := 1 }] : List Comment).length = 2 ∧
    (([{ Id := 1, ThreadId := 1 }, { Id := 2, ThreadId := 1 }] : List Comment).map
      Comment.Id).Nodup ∧
    (∀ c ∈ ([{ Id := 1, ThreadId := 1 }, { Id := 2, ThreadId := 1 }] : List Comment),
      c.ThreadId = c.Id ∨
      ∃ p ∈ ([{ Id := 1, ThreadId := 1 }, { Id := 2, ThreadId := 1 }] : List Comment),
        p ≠ c ∧ p.Id = c.ThreadId) ∧
    (FindComments loopvar [{ Id := 1, ThreadId := 1 }, { Id := 2, ThreadId := 1 }]).map
      (fun r => (forestIds r.comments, (subtrees r.comments).length, r.count))
      = some ([1], 1, 2) := by
  cases loopvar <;> exact ⟨by decide, by decide, by decide, by decide⟩

/-! ## Reaction coordinator: lemmas -/

theorem DB.nextFault_nil (db : DB) (h : db.faults = []) : db.nextFault = (none, db) := by
  simp [DB.nextFault, h]

theorem Like.isFor_like_iff (c u : UUID) (r : Like) :
    Like.isFor c u r = true ↔ r.CommentId = c ∧ r.UserId = u := by
  simp [Like.isFor]

theorem Dislike.isFor_dislike_iff (c u : UUID) (r : Dislike) :
    Dislike.isFor c u r = true ↔ r.CommentId = c ∧ r.UserId = u := by
  simp [Dislike.isFor]

/-- Rows left by a `DELETE ... WHERE p`, counted under a condition `q`: never more
than before. -/
theorem count_delete_le {α : Type} (p q : α → Bool) (l : List α) :
    ((l.filter (fun r => !p r)).filter q).length ≤ (l.filter q).length :=
  ((List.filter_sublist l).filter q).length_le

/-- After a `DELETE ... WHERE p` no row satisfies `p`. -/
theorem count_delete_self {α : Type} (p : α → Bool) (l : List α) :
    ((l.filter (fun r => !p r)).filter p).length = 0 := by
  rw [List.length_eq_zero, List.filter_filter, List.filter_eq_nil_iff]
  intro a _
  simp

/-- A `DELETE ... WHERE p` on a table without a row for `p` changes nothing. -/
theorem delete_none {α : Type} (p : α → Bool) (l : List α) (h : (l.filter p).length = 0) :
    l.filter (fun r => !p r) = l := by
  rw [List.length_eq_zero, List.filter_eq_nil_iff] at h
  rw [List.filter_eq_self]
  intro a ha
  simpa using h a ha

/-- The rows satisfying `p` and the rows a `DELETE ... WHERE p` leaves make up the
table. -/
theorem count_delete_add {α : Type} (p : α → Bool) (l : List α) :
    (l.filter (fun r => !p r)).length + (l.filter p).length = l.length := by
  induction l with
  | nil => rfl
  | cons a l ih =>
    cases h : p a <;> simp [List.filter_cons, h] <;> omega

theorem any_iff_count_pos {α : Type} (p : α → Bool) (l : List α) :
    l.any p = true ↔ 0 < (l.filter p).length := by
  rw [List.length_pos, ne_eq, List.filter_eq_nil_iff]
  simp

theorem postgres.AddLike_stmt_ok (db : DB) (like : Like) (h : db.faults = []) :
    postgres.AddLike db like
      = (if db.likes.any (Like.isFor like.CommentId like.UserId) then db
          else { db with likes := db.likes ++ [like] }, none) := by
  simp only [postgres.AddLike, DB.nextFault_nil db h]
  split <;> rfl

theorem postgres.AddDislike_stmt_ok (db : DB) (dislike : Dislike) (h : db.faults = []) :
    postgres.AddDislike db dislike
      = (if db.dislikes.any (Dislike.isFor dislike.CommentId dislike.UserId) then db
          else { db with dislikes := db.dislikes ++ [dislike] }, none) := by
  simp only [postgres.AddDislike, DB.nextFault_nil db h]
  split <;> rfl

theorem postgres.DeleteLike_stmt_ok (db : DB) (like : Like) (h : db.faults = []) :
    postgres.DeleteLike db like
      = ({ db with likes := db.likes.filter (fun r => !Like.isFor like.CommentId like.UserId r) },
          if db.likeCount like.CommentId like.UserId = 0 then some "like not found" else none) := by
  have h2 := DB.nextFault_nil
    { db with likes := db.likes.filter (fun r => !Like.isFor like.CommentId like.UserId r) } h
  simp only [postgres.DeleteLike, DB.nextFault_nil db h, h2, DB.likeCount]
  split <;> rfl

theorem postgres.DeleteDislike_stmt_ok (db : DB) (dislike : Dislike) (h : db.faults = []) :
    postgres.DeleteDislike db dislike
      = ({ db with dislikes :=
            db.dislikes.filter (fun r => !Dislike.isFor dislike.CommentId dislike.UserId r) },
          if db.dislikeCount dislike.CommentId dislike.UserId = 0 then some "dislike not found"
          else none) := by
  have h2 := DB.nextFault_nil
    { db with dislikes :=
        db.dislikes.filter (fun r => !Dislike.isFor dislike.CommentId dislike.UserId r) } h
  simp only [postgres.DeleteDislike, DB.nextFault_nil db h, h2, DB.dislikeCount]
  split <;> rfl

/-- Without a failure of the driver, `AddLike` of the service deletes the dislike
rows of the pair and then inserts the like unless the pair has one. -/
theorem service.AddLike_ok (db : DB) (like : Like) (h : db.faults = []) :
    service.AddLike postgres.NewForum db like
      = (if db.likes.any (Like.isFor like.CommentId like.UserId) then
            { db with dislikes :=
                db.dislikes.filter (fun r => !Dislike.isFor like.CommentId like.UserId r) }
          else
            { db with
              likes := db.likes ++ [like]
              dislikes :=
                db.dislikes.filter (fun r => !Dislike.isFor like.CommentId like.UserId r) },
          none) := by
  have h2 := postgres.AddLike_stmt_ok
    { db with dislikes :=
        db.dislikes.filter (fun r => !Dislike.isFor like.CommentId like.UserId r) } like h
  simp only [service.AddLike, postgres.NewForum, postgres.DeleteDislike_stmt_ok db _ h]
  split
  · next s1 err heq =>
    simp only [Prod.mk.injEq] at heq
    obtain ⟨h1, h3⟩ := heq
    subst h1
    split at h3
    · cases h3
      simp only [ne_eq, not_true_eq_false, if_false]
      rw [h2]
    · cases h3
  · next s1 heq =>
    simp only [Prod.mk.injEq] at heq
    obtain ⟨h1, -⟩ := heq
    subst h1
    rw [h2]

/-- Without a failure of the driver, `AddDislike` of the service deletes the like
rows of the pair and then inserts the dislike unless the pair has one. -/
theorem service.AddDislike_ok (db : DB) (dislike : Dislike) (h : db.faults = []) :
    service.AddDislike postgres.NewForum db dislike
      = (if db.dislikes.any (Dislike.isFor dislike.CommentId dislike.UserId) then
            { db with likes :=
                db.likes.filter (fun r => !Like.isFor dislike.CommentId dislike.UserId r) }
          else
            { db with
              likes := db.likes.filter (fun r => !Like.isFor dislike.CommentId dislike.UserId r)
              dislikes := db.dislikes ++ [dislike] },
          none) := by
  have h2 := postgres.AddDislike_stmt_ok
    { db with likes :=
        db.likes.filter (fun r => !Like.isFor dislike.CommentId dislike.UserId r) } dislike h
  simp only [service.AddDislike, postgres.NewForum, postgres.DeleteLike_stmt_ok db _ h]
  split
  · next s1 err heq =>
    simp only [Prod.mk.injEq] at heq
    obtain ⟨h1, h3⟩ := heq
    subst h1
    split at h3
    · cases h3
      simp only [ne_eq, not_true_eq_false, if_false]
      rw [h2]
    · cases h3
  · next s1 heq =>
    simp only [Prod.mk.injEq] at heq
    obtain ⟨h1, -⟩ := heq
    subst h1
    rw [h2]

theorem any_delete_false {α : Type} (p : α → Bool) (l : List α) :
    (l.filter (fun r => !p r)).any p = false := by
  rw [Bool.eq_false_iff, ne_eq, any_iff_count_pos, count_delete_self]
  exact lt_irrefl 0

theorem count_insert {α : Type} (q : α → Bool) (l : List α) (x : α) :
    ((l ++ [x]).filter q).length = (l.filter q).length + (if q x then 1 else 0) := by
  cases h : q x <;> simp [List.filter_append, List.filter_cons, h]

/-- What `AddLike` of the service does to the tables when the driver does not fail. -/
theorem service.AddLike_effect (db : DB) (like : Like) (h : db.faults = []) :
    (service.AddLike postgres.NewForum db like).2 = none ∧
    (service.AddLike postgres.NewForum db like).1.faults = [] ∧
    (service.AddLike postgres.NewForum db like).1.dislikes
      = db.dislikes.filter (fun r => !Dislike.isFor like.CommentId like.UserId r) ∧
    (service.AddLike postgres.NewForum db like).1.likes
      = if db.likes.any (Like.isFor like.CommentId like.UserId) then db.likes
        else db.likes ++ [like] := by
  rw [service.AddLike_ok db like h]
  split <;> simp [h, *]

/-- What `AddDislike` of the service does to the tables when the driver does not
fail. -/
theorem service.AddDislike_effect (db : DB) (dislike : Dislike) (h : db.faults = []) :
    (service.AddDislike postgres.NewForum db dislike).2 = none ∧
    (service.AddDislike postgres.NewForum db dislike).1.faults = [] ∧
    (service.AddDislike postgres.NewForum db dislike).1.likes
      = db.likes.filter (fun r => !Like.isFor dislike.CommentId dislike.UserId r) ∧
    (service.AddDislike postgres.NewForum db dislike).1.dislikes
      = if db.dislikes.any (Dislike.isFor dislike.CommentId dislike.UserId) then db.dislikes
        else db.dislikes ++ [dislike] := by
  rw [service.AddDislike_ok db dislike h]
  split <;> simp [h, *]

/-! ## Reaction coordinator: the claims -/

/-- C6: when the driver does not fail, from every state of the tables and for every
pair `(c, u)`: after `AddLike(c,u)` and then `AddDislike(c,u)` of the service, both
without error, the pair has exactly one dislike row and no like row; after
`AddDislike(c,u)` and then `AddLike(c,u)` it has exactly one like row and no
dislike row. -/
theorem C6_switch_leaves_one_reaction (db : DB) (like : Like) (dislike : Dislike)
    (hf : db.faults = []) (hc : dislike.CommentId = like.CommentId)
    (hu : dislike.UserId = like.UserId) :
    ((service.AddLike postgres.NewForum db like).2 = none ∧
      (service.AddDislike postgres.NewForum
        (service.AddLike postgres.NewForum db like).1 dislike).2 = none ∧
      (service.AddDislike postgres.NewForum
        (service.AddLike postgres.NewForum db like).1 dislike).1.dislikeCount
          like.CommentId like.UserId = 1 ∧
      (service.AddDislike postgres.NewForum
        (service.AddLike postgres.NewForum db like).1 dislike).1.likeCount
          like.CommentId like.UserId = 0) ∧
    ((service.AddDislike postgres.NewForum db dislike).2 = none ∧
      (service.AddLike postgres.NewForum
        (service.AddDislike postgres.NewForum db dislike).1 like).2 = none ∧
      (service.AddLike postgres.NewForum
        (service.AddDislike postgres.NewForum db dislike).1 like).1.likeCount
          like.CommentId like.UserId = 1 ∧
      (service.AddLike postgres.NewForum
        (service.AddDislike postgres.NewForum db dislike).1 like).1.dislikeCount
          like.CommentId like.UserId = 0) := by
  constructor
  · obtain ⟨a2, af, ad, -⟩ := service.AddLike_effect db like hf
    obtain ⟨b2, -, bl, bd⟩ := service.AddDislike_effect _ dislike af
    refine ⟨a2, b2, ?_, ?_⟩
    · rw [DB.dislikeCount, bd, ad, hc, hu, any_delete_false, if_neg (by simp), count_insert,
        count_delete_self]
      simp [Dislike.isFor, hc, hu]
    · rw [DB.likeCount, bl, hc, hu, count_delete_self]
  · obtain ⟨a2, af, al, -⟩ := service.AddDislike_effect db dislike hf
    obtain ⟨b2, -, bd, bl⟩ := service.AddLike_effect _ like af
    refine ⟨a2, b2, ?_, ?_⟩
    · rw [DB.likeCount, bl, al, hc, hu, any_delete_false, if_neg (by simp), count_insert,
        count_delete_self]
      simp [Like.isFor]
    · rw [DB.dislikeCount, bd, count_delete_self]

/-- C6 at a state: the user 2 has a dislike on the comment 1, under the row id 7. -/
theorem C6_switch_leaves_one_reaction_witness :
    ((service.AddLike postgres.NewForum
        { likes := [], dislikes := [{ Id := 7, CommentId := 1, UserId := 2 }] }
        { Id := 8, CommentId := 1, UserId := 2 }).2 = none ∧
      (service.AddDislike postgres.NewForum
        (service.AddLike postgres.NewForum
          { likes := [], dislikes := [{ Id := 7, CommentId := 1, UserId := 2 }] }
          { Id := 8, CommentId := 1, UserId := 2 }).1
        { Id := 9, CommentId := 1, UserId := 2 }).2 = none ∧
      (service.AddDislike postgres.NewForum
        (service.AddLike postgres.NewForum
          { likes := [], dislikes := [{ Id := 7, CommentId := 1, UserId := 2 }] }
          { Id := 8, CommentId := 1, UserId := 2 }).1
        { Id := 9, CommentId := 1, UserId := 2 }).1.dislikeCount 1 2 = 1 ∧
      (service.AddDislike postgres.NewForum
        (service.AddLike postgres.NewForum
          { likes := [], dislikes := [{ Id := 7, CommentId := 1, UserId := 2 }] }
          { Id := 8, CommentId := 1, UserId := 2 }).1
        { Id := 9, CommentId := 1, UserId := 2 }).1.likeCount 1 2 = 0) ∧
    ((service.AddDislike postgres.NewForum
        { likes := [], dislikes := [{ Id := 7, CommentId := 1, UserId := 2 }] }
        { Id := 9, CommentId := 1, UserId := 2 }).2 = none ∧
      (service.AddLike postgres.NewForum
        (service.AddDislike postgres.NewForum
          { likes := [], dislikes := [{ Id := 7, CommentId := 1, UserId := 2 }] }
          { Id := 9, CommentId := 1, UserId := 2 }).1
        { Id := 8, CommentId := 1, UserId := 2 }).2 = none ∧
      (service.AddLike postgres.NewForum
        (service.AddDislike postgres.NewForum
          { likes := [], dislikes := [{ Id := 7, CommentId := 1, UserId := 2 }] }
          { Id := 9, CommentId := 1, UserId := 2 }).1
        { Id := 8, CommentId := 1, UserId := 2 }).1.likeCount 1 2 = 1 ∧
      (service.AddLike postgres.NewForum
        (service.AddDislike postgres.NewForum
          { likes := [], dislikes := [{ Id := 7, CommentId := 1, UserId := 2 }] }
          { Id := 9, CommentId := 1, UserId := 2 }).1
        { Id := 8, CommentId := 1, UserId := 2 }).1.dislikeCount 1 2 = 0) :=
  C6_switch_leaves_one_reaction
    { likes := [], dislikes := [{ Id := 7, CommentId := 1, UserId := 2 }] }
    { Id := 8, CommentId := 1, UserId := 2 } { Id := 9, CommentId := 1, UserId := 2 }
    rfl rfl rfl

/-- C8: when the driver does not fail and the tables obey their uniqueness
constraint, two calls of `AddLike` of the service in a row for the same pair
`(c, u)` both return no error, the database after the second call is the database
after the first, and the pair has exactly one like row. -/
theorem C8_addLike_twice (db : DB) (like like2 : Like) (hf : db.faults = [])
    (huniq : db.Unique) (hc : like2.CommentId = like.CommentId)
    (hu : like2.UserId = like.UserId) :
    (service.AddLike postgres.NewForum db like).2 = none ∧
    (service.AddLike postgres.NewForum (service.AddLike postgres.NewForum db like).1 like2).2
      = none ∧
    (service.AddLike postgres.NewForum (service.AddLike postgres.NewForum db like).1 like2).1
      = (service.AddLike postgres.NewForum db like).1 ∧
    (service.AddLike postgres.NewForum db like).1.likeCount like.CommentId like.UserId = 1 := by
  obtain ⟨a2, af, ad, al⟩ := service.AddLike_effect db like hf
  have hone : (service.AddLike postgres.NewForum db like).1.likeCount
      like.CommentId like.UserId = 1 := by
    rw [DB.likeCount, al]
    split
    · next hany =>
      have h1 := (any_iff_count_pos _ _).1 hany
      have h2 := (huniq like.CommentId like.UserId).1
      rw [DB.likeCount] at h2
      omega
    · next hany =>
      have h1 : ¬ 0 < (db.likes.filter (Like.isFor like.CommentId like.UserId)).length :=
        fun h => hany ((any_iff_count_pos _ _).2 h)
      have h0 : (db.likes.filter (Like.isFor like.CommentId like.UserId)).length = 0 := by
        omega
      rw [count_insert, h0]
      simp [Like.isFor]
  have hany : (service.AddLike postgres.NewForum db like).1.likes.any
      (Like.isFor like.CommentId like.UserId) = true := by
    rw [any_iff_count_pos]
    rw [DB.likeCount] at hone
    omega
  refine ⟨a2, ?_, ?_, hone⟩
  · exact (service.AddLike_effect _ like2 af).1
  · have hsame : (service.AddLike postgres.NewForum db like).1.dislikes.filter
        (fun r => !Dislike.isFor like.CommentId like.UserId r)
        = (service.AddLike postgres.NewForum db like).1.dislikes := by
      rw [ad]
      exact delete_none _ _ (count_delete_self _ _)
    rw [service.AddLike_ok _ like2 af, hc, hu, if_pos hany, hsame]

/-- C8 at a state: empty tables, the second call carries another row id. -/
theorem C8_addLike_twice_witness :
    (service.AddLike postgres.NewForum { likes := [], dislikes := [] }
      { Id := 8, CommentId := 1, UserId := 2 }).2 = none ∧
    (service.AddLike postgres.NewForum
      (service.AddLike postgres.NewForum { likes := [], dislikes := [] }
        { Id := 8, CommentId := 1, UserId := 2 }).1
      { Id := 9, CommentId := 1, UserId := 2 }).2 = none ∧
    (service.AddLike postgres.NewForum
      (service.AddLike postgres.NewForum { likes := [], dislikes := [] }
        { Id := 8, CommentId := 1, UserId := 2 }).1
      { Id := 9, CommentId := 1, UserId := 2 }).1
      = (service.AddLike postgres.NewForum { likes := [], dislikes := [] }
          { Id := 8, CommentId := 1, UserId := 2 }).1 ∧
    (service.AddLike postgres.NewForum { likes := [], dislikes := [] }
      { Id := 8, CommentId := 1, UserId := 2 }).1.likeCount 1 2 = 1 :=
  C8_addLike_twice { likes := [], dislikes := [] } { Id := 8, CommentId := 1, UserId := 2 }
    { Id := 9, CommentId := 1, UserId := 2 } rfl
    (fun _ _ => ⟨Nat.zero_le _, Nat.zero_le _⟩) rfl rfl

/-- C9: when the driver does not fail and the tables obey their uniqueness
constraint: `DeleteLike` for a pair without a like row returns the error
`like not found` and leaves the database as it is, and `DeleteDislike` for a pair
without a dislike row returns `dislike not found` and leaves the database as it
is; for a pair with a row the call returns no error, the table keeps its other
rows in their order and is one row shorter, and the other table is untouched. -/
theorem C9_delete_is_strict (db : DB) (like : Like) (dislike : Dislike) (hf : db.faults = [])
    (huniq : db.Unique) :
    (db.likeCount like.CommentId like.UserId = 0 →
      service.DeleteLike postgres.NewForum db like = (db, some "like not found")) ∧
    (db.dislikeCount dislike.CommentId dislike.UserId = 0 →
      service.DeleteDislike postgres.NewForum db dislike = (db, some "dislike not found")) ∧
    (db.likeCount like.CommentId like.UserId ≠ 0 →
      (service.DeleteLike postgres.NewForum db like).2 = none ∧
      (service.DeleteLike postgres.NewForum db like).1.likes
        = db.likes.filter (fun r => !Like.isFor like.CommentId like.UserId r) ∧
      (service.DeleteLike postgres.NewForum db like).1.likes.length + 1 = db.likes.length ∧
      (service.DeleteLike postgres.NewForum db like).1.dislikes = db.dislikes ∧
      (service.DeleteLike postgres.NewForum db like).1.faults = db.faults) ∧
    (db.dislikeCount dislike.CommentId dislike.UserId ≠ 0 →
      (service.DeleteDislike postgres.NewForum db dislike).2 = none ∧
      (service.DeleteDislike postgres.NewForum db dislike).1.dislikes
        = db.dislikes.filter (fun r => !Dislike.isFor dislike.CommentId dislike.UserId r) ∧
      (service.DeleteDislike postgres.NewForum db dislike).1.dislikes.length + 1
        = db.dislikes.length ∧
      (service.DeleteDislike postgres.NewForum db dislike).1.likes = db.likes ∧
      (service.DeleteDislike postgres.NewForum db dislike).1.faults = db.faults) := by
  have hL : service.DeleteLike postgres.NewForum db like = postgres.DeleteLike db like := rfl
  have hD : service.DeleteDislike postgres.NewForum db dislike
      = postgres.DeleteDislike db dislike := rfl
  rw [hL, hD, postgres.DeleteLike_stmt_ok db like hf, postgres.DeleteDislike_stmt_ok db dislike hf]
  refine ⟨fun h0 => ?_, fun h0 => ?_, fun h1 => ?_, fun h1 => ?_⟩
  · rw [if_pos h0, delete_none _ _ h0]
  · rw [if_pos h0, delete_none _ _ h0]
  · refine ⟨if_neg h1, rfl, ?_, rfl, rfl⟩
    have h2 := (huniq like.CommentId like.UserId).1
    have h3 := count_delete_add (Like.isFor like.CommentId like.UserId) db.likes
    rw [DB.likeCount] at h1 h2
    show (db.likes.filter (fun r => !Like.isFor like.CommentId like.UserId r)).length + 1 = _
    omega
  · refine ⟨if_neg h1, rfl, ?_, rfl, rfl⟩
    have h2 := (huniq dislike.CommentId dislike.UserId).2
    have h3 := count_delete_add (Dislike.isFor dislike.CommentId dislike.UserId) db.dislikes
    rw [DB.dislikeCount] at h1 h2
    show (db.dislikes.filter
      (fun r => !Dislike.isFor dislike.CommentId dislike.UserId r)).length + 1 = _
    omega

/-- C9 at a state: the user 2 has a like on the comment 1 and no dislike. -/
theorem C9_delete_is_strict_witness :
    service.DeleteDislike postgres.NewForum
        { likes := [{ Id := 7, CommentId := 1, UserId := 2 }], dislikes := [] }
        { CommentId := 1, UserId := 2 }
      = ({ likes := [{ Id := 7, CommentId := 1, UserId := 2 }], dislikes := [] },
          some "dislike not found") ∧
    (service.DeleteLike postgres.NewForum
        { likes := [{ Id := 7, CommentId := 1, UserId := 2 }], dislikes := [] }
        { CommentId := 1, UserId := 2 }).2 = none ∧
    (service.DeleteLike postgres.NewForum
        { likes := [{ Id := 7, CommentId := 1, UserId := 2 }], dislikes := [] }
        { CommentId := 1, UserId := 2 }).1.likes.length + 1 = 1 :=
  have h := C9_delete_is_strict
    { likes := [{ Id := 7, CommentId := 1, UserId := 2 }], dislikes := [] }
    { CommentId := 1, UserId := 2 } { CommentId := 1, UserId := 2 } rfl
    (fun _ _ => ⟨(List.filter_sublist _).length_le, Nat.zero_le _⟩)
  ⟨h.2.1 (by decide), (h.2.2.1 (by decide)).1, (h.2.2.1 (by decide)).2.2.1⟩

/-- C10: over every repository, `AddLike` of the service first calls `DeleteDislike`
with the comment and the user of the like. On the error `dislike not found`, and
on no error, the result is that of the repository's `AddLike` called on the state
`DeleteDislike` left; on any other error the result is the state `DeleteDislike`
left with that same error, so that no later call of the repository has taken
place. `AddDislike` does the same with `DeleteLike` and `like not found`. -/
theorem C10_add_swallows_only_not_found {σ : Type} (repo : ForumRepo σ) (s s1 : σ)
    (like : Like) (dislike : Dislike) :
    (repo.DeleteDislike s { CommentId := like.CommentId, UserId := like.UserId }
        = (s1, some "dislike not found") →
      service.AddLike repo s like = repo.AddLike s1 like) ∧
    (repo.DeleteDislike s { CommentId := like.CommentId, UserId := like.UserId } = (s1, none) →
      service.AddLike repo s like = repo.AddLike s1 like) ∧
    (∀ e, e ≠ "dislike not found" →
      repo.DeleteDislike s { CommentId := like.CommentId, UserId := like.UserId }
        = (s1, some e) →
      service.AddLike repo s like = (s1, some e)) ∧
    (repo.DeleteLike s { CommentId := dislike.CommentId, UserId := dislike.UserId }
        = (s1, some "like not found") →
      service.AddDislike repo s dislike = repo.AddDislike s1 dislike) ∧
    (repo.DeleteLike s { CommentId := dislike.CommentId, UserId := dislike.UserId }
        = (s1, none) →
      service.AddDislike repo s dislike = repo.AddDislike s1 dislike) ∧
    (∀ e, e ≠ "like not found" →
      repo.DeleteLike s { CommentId := dislike.CommentId, UserId := dislike.UserId }
        = (s1, some e) →
      service.AddDislike repo s dislike = (s1, some e)) := by
  refine ⟨fun h => ?_, fun h => ?_, fun e he h => ?_, fun h => ?_, fun h => ?_, fun e he h => ?_⟩
  · simp [service.AddLike, h]
  · simp [service.AddLike, h]
  · simp [service.AddLike, h, he]
  · simp [service.AddDislike, h]
  · simp [service.AddDislike, h]
  · simp [service.AddDislike, h, he]

/-- C10 on a repository that records its calls: with the error `dislike not found`
the calls of `AddLike` are `DeleteDislike`, `AddLike`, and there is no error; with
the error `connection refused` the only call is `DeleteDislike`, and the error is
returned. -/
theorem C10_add_swallows_only_not_found_witness :
    service.AddLike (recordingRepo (some "dislike not found")) [] { CommentId := 1, UserId := 2 }
      = (["DeleteDislike", "AddLike"], none) ∧
    service.AddLike (recordingRepo (some "connection refused")) [] { CommentId := 1, UserId := 2 }
      = (["DeleteDislike"], some "connection refused") ∧
    service.AddDislike (recordingRepo (some "connection refused")) []
        { CommentId := 1, UserId := 2 }
      = (["DeleteLike"], some "connection refused") :=
  ⟨(C10_add_swallows_only_not_found (recordingRepo (some "dislike not found")) []
      ["DeleteDislike"] { CommentId := 1, UserId := 2 } { CommentId := 1, UserId := 2 }).1 rfl,
    (C10_add_swallows_only_not_found (recordingRepo (some "connection refused")) []
      ["DeleteDislike"] { CommentId := 1, UserId := 2 }
      { CommentId := 1, UserId := 2 }).2.2.1 "connection refused" (by decide) rfl,
    (C10_add_swallows_only_not_found (recordingRepo (some "connection refused")) []
      ["DeleteLike"] { CommentId := 1, UserId := 2 }
      { CommentId := 1, UserId := 2 }).2.2.2.2.2 "connection refused" (by decide) rfl⟩

/-! ## Reaction coordinator: the tables under failures of the driver -/

theorem DB.nextFault_effect (db : DB) :
    db.nextFault.2.likes = db.likes ∧ db.nextFault.2.dislikes = db.dislikes ∧
    (∀ e, e ∈ db.nextFault.2.faults → e ∈ db.faults) ∧
    (∀ e, db.nextFault.1 = some e → some e ∈ db.faults) := by
  rcases db with ⟨L, D, F, C, M⟩
  cases F with
  | nil => simp [DB.nextFault]
  | cons f fs =>
    refine ⟨rfl, rfl, fun e he => List.mem_cons_of_mem _ he, fun e he => ?_⟩
    have he' : f = some e := he
    rw [he']
    exact List.mem_cons_self _ _

/-- What `forumRepo.DeleteLike` does to the database, failures of the driver
included: the dislikes stay, the script of failures only gets shorter, and either
the likes stay and the error is one of the driver, or the rows of the pair are
gone. -/
theorem postgres.DeleteLike_stmt_effect (db : DB) (like : Like) :
    (postgres.DeleteLike db like).1.dislikes = db.dislikes ∧
    (∀ e, e ∈ (postgres.DeleteLike db like).1.faults → e ∈ db.faults) ∧
    (((postgres.DeleteLike db like).1.likes = db.likes ∧
        ∃ e, (postgres.DeleteLike db like).2 = some e ∧ some e ∈ db.faults) ∨
      (postgres.DeleteLike db like).1.likes
        = db.likes.filter (fun r => !Like.isFor like.CommentId like.UserId r)) := by
  obtain ⟨h1, h2, h3, h4⟩ := DB.nextFault_effect db
  unfold postgres.DeleteLike
  rcases hnf : db.nextFault with ⟨f, db1⟩
  rw [hnf] at h1 h2 h3 h4
  simp only at h1 h2 h3 h4
  cases f with
  | some e =>
    exact ⟨h2, h3, Or.inl ⟨h1, e, rfl, h4 e rfl⟩⟩
  | none =>
    simp only
    obtain ⟨g1, g2, g3, -⟩ := DB.nextFault_effect
      { db1 with likes := db1.likes.filter (fun r => !Like.isFor like.CommentId like.UserId r) }
    rcases hnf2 : DB.nextFault
      { db1 with likes := db1.likes.filter (fun r => !Like.isFor like.CommentId like.UserId r) }
      with ⟨f2, db3⟩
    rw [hnf2] at g1 g2 g3
    simp only at g1 g2 g3
    have hl : db3.likes = db.likes.filter (fun r => !Like.isFor like.CommentId like.UserId r) := by
      rw [g1, h1]
    have hd : db3.dislikes = db.dislikes := by rw [g2, h2]
    have hfl : ∀ e, e ∈ db3.faults → e ∈ db.faults := fun e he => h3 e (g3 e he)
    cases f2 with
    | some e => exact ⟨hd, hfl, Or.inr hl⟩
    | none =>
      simp only
      split
      · exact ⟨hd, hfl, Or.inr hl⟩
      · exact ⟨hd, hfl, Or.inr hl⟩

/-- What `forumRepo.AddLike` does to the database, failures of the driver included:
the dislikes stay, the script of failures only gets shorter, and the likes stay or,
when the pair had no like row, gain the new row. -/
theorem postgres.AddLike_stmt_effect (db : DB) (like : Like) :
    (postgres.AddLike db like).1.dislikes = db.dislikes ∧
    (∀ e, e ∈ (postgres.AddLike db like).1.faults → e ∈ db.faults) ∧
    ((postgres.AddLike db like).1.likes = db.likes ∨
      (db.likeCount like.CommentId like.UserId = 0 ∧
        (postgres.AddLike db like).1.likes = db.likes ++ [like])) := by
  obtain ⟨h1, h2, h3, -⟩ := DB.nextFault_effect db
  unfold postgres.AddLike
  rcases hnf : db.nextFault with ⟨f, db1⟩
  rw [hnf] at h1 h2 h3
  simp only at h1 h2 h3
  cases f with
  | some e => exact ⟨h2, h3, Or.inl h1⟩
  | none =>
    simp only
    split
    · exact ⟨h2, h3, Or.inl h1⟩
    · next hany =>
      refine ⟨h2, h3, Or.inr ⟨?_, by simp [h1]⟩⟩
      rw [h1, any_iff_count_pos] at hany
      rw [DB.likeCount]
      omega

/-- What `forumRepo.DeleteDislike` does to the database, failures of the driver
included: the likes stay, the script of failures only gets shorter, and either
the dislikes stay and the error is one of the driver, or the rows of the pair are
gone. -/
theorem postgres.DeleteDislike_stmt_effect (db : DB) (dislike : Dislike) :
    (postgres.DeleteDislike db dislike).1.likes = db.likes ∧
    (∀ e, e ∈ (postgres.DeleteDislike db dislike).1.faults → e ∈ db.faults) ∧
    (((postgres.DeleteDislike db dislike).1.dislikes = db.dislikes ∧
        ∃ e, (postgres.DeleteDislike db dislike).2 = some e ∧ some e ∈ db.faults) ∨
      (postgres.DeleteDislike db dislike).1.dislikes
        = db.dislikes.filter (fun r => !Dislike.isFor dislike.CommentId dislike.UserId r)) := by
  obtain ⟨h2, h1, h3, h4⟩ := DB.nextFault_effect db
  unfold postgres.DeleteDislike
  rcases hnf : db.nextFault with ⟨f, db1⟩
  rw [hnf] at h1 h2 h3 h4
  simp only at h1 h2 h3 h4
  cases f with
  | some e =>
    exact ⟨h2, h3, Or.inl ⟨h1, e, rfl, h4 e rfl⟩⟩
  | none =>
    simp only
    obtain ⟨g2, g1, g3, -⟩ := DB.nextFault_effect
      { db1 with dislikes := db1.dislikes.filter (fun r => !Dislike.isFor dislike.CommentId dislike.UserId r) }
    rcases hnf2 : DB.nextFault
      { db1 with dislikes := db1.dislikes.filter (fun r => !Dislike.isFor dislike.CommentId dislike.UserId r) }
      with ⟨f2, db3⟩
    rw [hnf2] at g1 g2 g3
    simp only at g1 g2 g3
    have hl : db3.dislikes = db.dislikes.filter (fun r => !Dislike.isFor dislike.CommentId dislike.UserId r) := by
      rw [g1, h1]
    have hd : db3.likes = db.likes := by rw [g2, h2]
    have hfl : ∀ e, e ∈ db3.faults → e ∈ db.faults := fun e he => h3 e (g3 e he)
    cases f2 with
    | some e => exact ⟨hd, hfl, Or.inr hl⟩
    | none =>
      simp only
      split
      · exact ⟨hd, hfl, Or.inr hl⟩
      · exact ⟨hd, hfl, Or.inr hl⟩

/-- What `forumRepo.AddDislike` does to the database, failures of the driver included:
the likes stay, the script of failures only gets shorter, and the dislikes stay or,
when the pair had no dislike row, gain the new row. -/
theorem postgres.AddDislike_stmt_effect (db : DB) (dislike : Dislike) :
    (postgres.AddDislike db dislike).1.likes = db.likes ∧
    (∀ e, e ∈ (postgres.AddDislike db dislike).1.faults → e ∈ db.faults) ∧
    ((postgres.AddDislike db dislike).1.dislikes = db.dislikes ∨
      (db.dislikeCount dislike.CommentId dislike.UserId = 0 ∧
        (postgres.AddDislike db dislike).1.dislikes = db.dislikes ++ [dislike])) := by
  obtain ⟨h2, h1, h3, -⟩ := DB.nextFault_effect db
  unfold postgres.AddDislike
  rcases hnf : db.nextFault with ⟨f, db1⟩
  rw [hnf] at h1 h2 h3
  simp only at h1 h2 h3
  cases f with
  | some e => exact ⟨h2, h3, Or.inl h1⟩
  | none =>
    simp only
    split
    · exact ⟨h2, h3, Or.inl h1⟩
    · next hany =>
      refine ⟨h2, h3, Or.inr ⟨?_, by simp [h1]⟩⟩
      rw [h1, any_iff_count_pos] at hany
      rw [DB.dislikeCount]
      omega

/-- Tables whose counts did not grow, with a script of failures that did not grow,
keep the uniqueness of the rows, the exclusion of like and dislike and the
condition on the errors of the driver. -/
theorem DB.inv_of_le (db db' : DB) (hl : ∀ c u, db'.likeCount c u ≤ db.likeCount c u)
    (hdl : ∀ c u, db'.dislikeCount c u ≤ db.dislikeCount c u)
    (hf : ∀ e, e ∈ db'.faults → e ∈ db.faults)
    (hd : db.DriverErrors) (hu : db.Unique) (he : db.Exclusive) :
    db'.DriverErrors ∧ db'.Unique ∧ db'.Exclusive := by
  refine ⟨fun e h => hd e (hf _ h), fun c u => ?_, fun c u => ?_⟩
  · have := hu c u
    have := hl c u
    have := hdl c u
    omega
  · have := he c u
    have := hl c u
    have := hdl c u
    omega

/-- Inserting a like row for a pair that has neither a like row nor a dislike row
keeps the uniqueness of the rows and the exclusion of like and dislike. -/
theorem DB.inv_insert_like (db db' : DB) (like : Like) (hl : db'.likes = db.likes ++ [like])
    (hdl : db'.dislikes = db.dislikes) (h0 : db.likeCount like.CommentId like.UserId = 0)
    (hd0 : db.dislikeCount like.CommentId like.UserId = 0)
    (hu : db.Unique) (he : db.Exclusive) : db'.Unique ∧ db'.Exclusive := by
  have hcount : ∀ c u, db'.likeCount c u
      = db.likeCount c u + (if Like.isFor c u like then 1 else 0) := by
    intro c u
    rw [DB.likeCount, hl, count_insert]
    rfl
  have hdcount : ∀ c u, db'.dislikeCount c u = db.dislikeCount c u := by
    intro c u
    rw [DB.dislikeCount, hdl]
    rfl
  have key : ∀ c u, (Like.isFor c u like = true → db.likeCount c u = 0 ∧ db.dislikeCount c u = 0) := by
    intro c u h
    obtain ⟨rfl, rfl⟩ := (Like.isFor_like_iff c u like).1 h
    exact ⟨h0, hd0⟩
  refine ⟨fun c u => ?_, fun c u => ?_⟩
  · have h1 := hu c u
    have h2 := hcount c u
    have h3 := hdcount c u
    by_cases hx : Like.isFor c u like = true
    · have h4 := key c u hx
      rw [if_pos hx] at h2
      omega
    · rw [if_neg hx] at h2
      omega
  · have h1 := he c u
    have h2 := hcount c u
    have h3 := hdcount c u
    by_cases hx : Like.isFor c u like = true
    · have h4 := key c u hx
      rw [if_pos hx] at h2
      omega
    · rw [if_neg hx] at h2
      omega

/-- `AddLike` of the service keeps the uniqueness of the rows and the exclusion of
like and dislike, whatever the driver does. -/
theorem service.AddLike_preserves (db : DB) (like : Like) (hd : db.DriverErrors)
    (hu : db.Unique) (he : db.Exclusive) :
    (service.AddLike postgres.NewForum db like).1.DriverErrors ∧
    (service.AddLike postgres.NewForum db like).1.Unique ∧
    (service.AddLike postgres.NewForum db like).1.Exclusive := by
  obtain ⟨d1, d2, d3⟩ := postgres.DeleteDislike_stmt_effect db
    { CommentId := like.CommentId, UserId := like.UserId }
  unfold service.AddLike
  simp only [postgres.NewForum]
  rcases hr : postgres.DeleteDislike db { CommentId := like.CommentId, UserId := like.UserId }
    with ⟨s1, err⟩
  rw [hr] at d1 d2 d3
  simp only at d1 d2 d3
  have hle : ∀ c u, s1.dislikeCount c u ≤ db.dislikeCount c u := by
    intro c u
    rcases d3 with ⟨h, -⟩ | h
    · rw [DB.dislikeCount, h]; exact le_refl _
    · rw [DB.dislikeCount, h]; exact count_delete_le _ _ _
  have hsame : ∀ c u, s1.likeCount c u ≤ db.likeCount c u := by
    intro c u
    rw [DB.likeCount, d1]
    exact le_refl _
  have hs1 := DB.inv_of_le db s1 hsame hle d2 hd hu he
  -- the insertion, reached without error or with the swallowed one
  have hins : (∀ e, err = some e → e = "dislike not found") →
      (postgres.AddLike s1 like).1.DriverErrors ∧ (postgres.AddLike s1 like).1.Unique ∧
      (postgres.AddLike s1 like).1.Exclusive := by
    intro herr
    have hzero : s1.dislikeCount like.CommentId like.UserId = 0 := by
      rcases d3 with ⟨-, e, h1, h2⟩ | h
      · exact absurd (herr e h1) (hd e h2).2
      · rw [DB.dislikeCount, h]; exact count_delete_self _ _
    obtain ⟨a1, a2, a3⟩ := postgres.AddLike_stmt_effect s1 like
    rcases a3 with a3 | ⟨a0, a3⟩
    · exact DB.inv_of_le s1 _ (fun c u => by rw [DB.likeCount, a3]; exact le_refl _)
        (fun c u => by rw [DB.dislikeCount, a1]; exact le_refl _) a2 hs1.1 hs1.2.1 hs1.2.2
    · exact ⟨fun e h => hs1.1 e (a2 _ h),
        DB.inv_insert_like s1 _ like a3 a1 a0 hzero hs1.2.1 hs1.2.2⟩
  cases err with
  | none => exact hins (fun e h => by cases h)
  | some e =>
    simp only
    split
    · exact hs1
    · next hne =>
      exact hins (fun e' h => by cases h; exact not_not.1 hne)

/-- Inserting a dislike row for a pair that has neither a dislike row nor a like row
keeps the uniqueness of the rows and the exclusion of dislike and like. -/
theorem DB.inv_insert_dislike (db db' : DB) (dislike : Dislike) (hl : db'.dislikes = db.dislikes ++ [dislike])
    (hdl : db'.likes = db.likes) (h0 : db.dislikeCount dislike.CommentId dislike.UserId = 0)
    (hd0 : db.likeCount dislike.CommentId dislike.UserId = 0)
    (hu : db.Unique) (he : db.Exclusive) : db'.Unique ∧ db'.Exclusive := by
  have hcount : ∀ c u, db'.dislikeCount c u
      = db.dislikeCount c u + (if Dislike.isFor c u dislike then 1 else 0) := by
    intro c u
    rw [DB.dislikeCount, hl, count_insert]
    rfl
  have hdcount : ∀ c u, db'.likeCount c u = db.likeCount c u := by
    intro c u
    rw [DB.likeCount, hdl]
    rfl
  have key : ∀ c u, (Dislike.isFor c u dislike = true → db.dislikeCount c u = 0 ∧ db.likeCount c u = 0) := by
    intro c u h
    obtain ⟨rfl, rfl⟩ := (Dislike.isFor_dislike_iff c u dislike).1 h
    exact ⟨h0, hd0⟩
  refine ⟨fun c u => ?_, fun c u => ?_⟩
  · have h1 := hu c u
    have h2 := hcount c u
    have h3 := hdcount c u
    by_cases hx : Dislike.isFor c u dislike = true
    · have h4 := key c u hx
      rw [if_pos hx] at h2
      omega
    · rw [if_neg hx] at h2
      omega
  · have h1 := he c u
    have h2 := hcount c u
    have h3 := hdcount c u
    by_cases hx : Dislike.isFor c u dislike = true
    · have h4 := key c u hx
      rw [if_pos hx] at h2
      omega
    · rw [if_neg hx] at h2
      omega

/-- `AddDislike` of the service keeps the uniqueness of the rows and the exclusion of
dislike and like, whatever the driver does. -/
theorem service.AddDislike_preserves (db : DB) (dislike : Dislike) (hd : db.DriverErrors)
    (hu : db.Unique) (he : db.Exclusive) :
    (service.AddDislike postgres.NewForum db dislike).1.DriverErrors ∧
    (service.AddDislike postgres.NewForum db dislike).1.Unique ∧
    (service.AddDislike postgres.NewForum db dislike).1.Exclusive := by
  obtain ⟨d1, d2, d3⟩ := postgres.DeleteLike_stmt_effect db
    { CommentId := dislike.CommentId, UserId := dislike.UserId }
  unfold service.AddDislike
  simp only [postgres.NewForum]
  rcases hr : postgres.DeleteLike db { CommentId := dislike.CommentId, UserId := dislike.UserId }
    with ⟨s1, err⟩
  rw [hr] at d1 d2 d3
  simp only at d1 d2 d3
  have hle : ∀ c u, s1.likeCount c u ≤ db.likeCount c u := by
    intro c u
    rcases d3 with ⟨h, -⟩ | h
    · rw [DB.likeCount, h]; exact le_refl _
    · rw [DB.likeCount, h]; exact count_delete_le _ _ _
  have hsame : ∀ c u, s1.dislikeCount c u ≤ db.dislikeCount c u := by
    intro c u
    rw [DB.dislikeCount, d1]
    exact le_refl _
  have hs1 := DB.inv_of_le db s1 hle hsame d2 hd hu he
  -- the insertion, reached without error or with the swallowed one
  have hins : (∀ e, err = some e → e = "like not found") →
      (postgres.AddDislike s1 dislike).1.DriverErrors ∧ (postgres.AddDislike s1 dislike).1.Unique ∧
      (postgres.AddDislike s1 dislike).1.Exclusive := by
    intro herr
    have hzero : s1.likeCount dislike.CommentId dislike.UserId = 0 := by
      rcases d3 with ⟨-, e, h1, h2⟩ | h
      · exact absurd (herr e h1) (hd e h2).1
      · rw [DB.likeCount, h]; exact count_delete_self _ _
    obtain ⟨a1, a2, a3⟩ := postgres.AddDislike_stmt_effect s1 dislike
    rcases a3 with a3 | ⟨a0, a3⟩
    · exact DB.inv_of_le s1 _ (fun c u => by rw [DB.likeCount, a1]; exact le_refl _)
        (fun c u => by rw [DB.dislikeCount, a3]; exact le_refl _) a2 hs1.1 hs1.2.1 hs1.2.2
    · exact ⟨fun e h => hs1.1 e (a2 _ h),
        DB.inv_insert_dislike s1 _ dislike a3 a1 a0 hzero hs1.2.1 hs1.2.2⟩
  cases err with
  | none => exact hins (fun e h => by cases h)
  | some e =>
    simp only
    split
    · exact hs1
    · next hne =>
      exact hins (fun e' h => by cases h; exact not_not.1 hne)

/-- One operation of the service keeps the uniqueness of the rows and the exclusion
of like and dislike, whatever the driver does. -/
theorem ReactionOp.run_preserves (db : DB) (op : ReactionOp) (hd : db.DriverErrors)
    (hu : db.Unique) (he : db.Exclusive) :
    (op.run db).DriverErrors ∧ (op.run db).Unique ∧ (op.run db).Exclusive := by
  cases op with
  | addLike l => exact service.AddLike_preserves db l hd hu he
  | addDislike d => exact service.AddDislike_preserves db d hd hu he
  | deleteLike l =>
    obtain ⟨d1, d2, d3⟩ := postgres.DeleteLike_stmt_effect db l
    refine DB.inv_of_le db _ (fun c u => ?_)
      (fun c u => by
        show (postgres.DeleteLike db l).1.dislikeCount c u ≤ _
        rw [DB.dislikeCount, d1]; exact le_refl _) d2 hd hu he
    show (postgres.DeleteLike db l).1.likeCount c u ≤ _
    rcases d3 with ⟨h, -⟩ | h
    · rw [DB.likeCount, h]; exact le_refl _
    · rw [DB.likeCount, h]; exact count_delete_le _ _ _
  | deleteDislike d =>
    obtain ⟨d1, d2, d3⟩ := postgres.DeleteDislike_stmt_effect db d
    refine DB.inv_of_le db _
      (fun c u => by
        show (postgres.DeleteDislike db d).1.likeCount c u ≤ _
        rw [DB.likeCount, d1]; exact le_refl _) (fun c u => ?_) d2 hd hu he
    show (postgres.DeleteDislike db d).1.dislikeCount c u ≤ _
    rcases d3 with ⟨h, -⟩ | h
    · rw [DB.dislikeCount, h]; exact le_refl _
    · rw [DB.dislikeCount, h]; exact count_delete_le _ _ _

theorem runOps_preserves (ops : List ReactionOp) (db : DB) (hd : db.DriverErrors)
    (hu : db.Unique) (he : db.Exclusive) :
    (runOps db ops).DriverErrors ∧ (runOps db ops).Unique ∧ (runOps db ops).Exclusive := by
  induction ops generalizing db with
  | nil => exact ⟨hd, hu, he⟩
  | cons op ops ih =>
    obtain ⟨h1, h2, h3⟩ := ReactionOp.run_preserves db op hd hu he
    exact ih (op.run db) h1 h2 h3

/-- C7: from a database in which every pair `(comment, user)` has at most one row in
each table and never a like row together with a dislike row, every sequence of
`AddLike`, `DeleteLike`, `AddDislike` and `DeleteDislike` of the service, executed
one after the other, ends in such a database, whichever calls of the driver fail on
the way (the errors of the driver being its own, not one of the two texts
`like not found` and `dislike not found` that the service compares). -/
theorem C7_reactions_stay_exclusive (db : DB) (ops : List ReactionOp) (hd : db.DriverErrors)
    (hu : db.Unique) (he : db.Exclusive) :
    (runOps db ops).Unique ∧ (runOps db ops).Exclusive :=
  (runOps_preserves ops db hd hu he).2

/-- C7 at a state: the user 2 has a dislike on the comment 1; the deletion of the
first `AddLike` succeeds, its insertion fails, and so does the deletion of the
`AddDislike` after it. -/
theorem C7_reactions_stay_exclusive_witness :
    (runOps
      { likes := [], dislikes := [{ Id := 7, CommentId := 1, UserId := 2 }],
        faults := [none, none, some "connection refused", some "connection refused"] }
      [.addLike { Id := 8, CommentId := 1, UserId := 2 },
        .addDislike { Id := 9, CommentId := 1, UserId := 2 },
        .addLike { Id := 10, CommentId := 1, UserId := 2 },
        .deleteDislike { CommentId := 1, UserId := 2 }]).Unique ∧
    (runOps
      { likes := [], dislikes := [{ Id := 7, CommentId := 1, UserId := 2 }],
        faults := [none, none, some "connection refused", some "connection refused"] }
      [.addLike { Id := 8, CommentId := 1, UserId := 2 },
        .addDislike { Id := 9, CommentId := 1, UserId := 2 },
        .addLike { Id := 10, CommentId := 1, UserId := 2 },
        .deleteDislike { CommentId := 1, UserId := 2 }]).Exclusive :=
  C7_reactions_stay_exclusive
    { likes := [], dislikes := [{ Id := 7, CommentId := 1, UserId := 2 }],
      faults := [none, none, some "connection refused", some "connection refused"] }
    [.addLike { Id := 8, CommentId := 1, UserId := 2 },
      .addDislike { Id := 9, CommentId := 1, UserId := 2 },
      .addLike { Id := 10, CommentId := 1, UserId := 2 },
      .deleteDislike { CommentId := 1, UserId := 2 }]
    (by
      intro e h
      have he : e = "connection refused" := by simpa using h
      subst he
      exact ⟨by decide, by decide⟩)
    (fun _ _ => ⟨Nat.zero_le _, (List.filter_sublist _).length_le⟩)
    (fun _ _ => Or.inl rfl)

/-! ## Complaints, counts and the deletion of comments -/

theorem postgres.AddComplaint_stmt_ok (db : DB) (complaint : Complaint) (h : db.faults = []) :
    postgres.AddComplaint db complaint
      = (if db.complaints.any (Complaint.isFor complaint.CommentId complaint.UserId) then
            { db with complaints := db.complaints.map (fun r : Complaint =>
                if Complaint.isFor complaint.CommentId complaint.UserId r then
                  ({ r with Message := r.Message ++ "\n" ++ complaint.Message } : Complaint)
                else r) }
          else { db with complaints := db.complaints ++ [complaint] }, none) := by
  simp only [postgres.AddComplaint, DB.nextFault_nil db h]
  split <;> rfl

theorem postgres.DeleteComplaint_stmt_ok (db : DB) (id : UUID) (h : db.faults = []) :
    postgres.DeleteComplaint db id
      = ({ db with complaints := db.complaints.filter (fun r => !(r.Id == id)) },
          if (db.complaints.filter (fun r => r.Id == id)).length = 0 then
            some "complaint not found"
          else none) := by
  have h2 := DB.nextFault_nil
    { db with complaints := db.complaints.filter (fun r => !(r.Id == id)) } h
  simp only [postgres.DeleteComplaint, DB.nextFault_nil db h, h2]
  split <;> rfl

/-- The rows of a pair after the update of the upsert: the rows of the pair before,
each with the new message appended. -/
theorem merge_filter (c u : UUID) (msg : String) (l : List Complaint) :
    (l.map (fun r : Complaint =>
        if Complaint.isFor c u r then ({ r with Message := r.Message ++ "\n" ++ msg } : Complaint)
        else r)).filter (Complaint.isFor c u)
      = (l.filter (Complaint.isFor c u)).map
          (fun r : Complaint => { r with Message := r.Message ++ "\n" ++ msg }) := by
  induction l with
  | nil => rfl
  | cons a l ih =>
    by_cases ha : Complaint.isFor c u a = true
    · have ha' : Complaint.isFor c u { a with Message := a.Message ++ "\n" ++ msg } = true := ha
      simp only [List.map_cons, if_pos ha, List.filter_cons, ha', ha, ih, if_true]
    · have ha0 : Complaint.isFor c u a = false := by simpa using ha
      simp [List.filter_cons, ha0, ih]

/-- The rows of the other pairs are not touched by the update of the upsert. -/
theorem merge_filter_others (c u : UUID) (msg : String) (l : List Complaint) :
    (l.map (fun r : Complaint =>
        if Complaint.isFor c u r then ({ r with Message := r.Message ++ "\n" ++ msg } : Complaint)
        else r)).filter (fun r => !Complaint.isFor c u r)
      = l.filter (fun r => !Complaint.isFor c u r) := by
  induction l with
  | nil => rfl
  | cons a l ih =>
    by_cases ha : Complaint.isFor c u a = true
    · have ha' : Complaint.isFor c u { a with Message := a.Message ++ "\n" ++ msg } = true := ha
      simp [List.filter_cons, ha', ha, ih]
    · have ha0 : Complaint.isFor c u a = false := by simpa using ha
      simp [List.filter_cons, ha0, ih]

/-- C11: when the driver does not fail and the pair `(c, u)` has no complaint,
`AddComplaint` for the pair with a message `a` and then with a message `b` both
return no error and leave one complaint row for the pair: the row of the first
call, under its id, with the message `a`, a newline, `b`; the rows of the other
pairs are as before. In general a complaint for a pair that has a row keeps the row
and sets its message to the old one, a newline and the new one. -/
theorem C11_complaints_merge (db : DB) (x y : Complaint) (hf : db.faults = [])
    (h0 : db.complaints.filter (Complaint.isFor x.CommentId x.UserId) = [])
    (hc : y.CommentId = x.CommentId) (hu : y.UserId = x.UserId) :
    (service.AddComplaint postgres.NewForum db x).2 = none ∧
    (service.AddComplaint postgres.NewForum
      (service.AddComplaint postgres.NewForum db x).1 y).2 = none ∧
    (service.AddComplaint postgres.NewForum
      (service.AddComplaint postgres.NewForum db x).1 y).1.complaints.filter
        (Complaint.isFor x.CommentId x.UserId)
      = [{ x with Message := x.Message ++ "\n" ++ y.Message }] ∧
    (service.AddComplaint postgres.NewForum
      (service.AddComplaint postgres.NewForum db x).1 y).1.complaints.filter
        (fun r => !Complaint.isFor x.CommentId x.UserId r)
      = db.complaints.filter (fun r => !Complaint.isFor x.CommentId x.UserId r) ∧
    (∀ (s : DB) (old z : Complaint), s.faults = [] →
      s.complaints.filter (Complaint.isFor z.CommentId z.UserId) = [old] →
      (service.AddComplaint postgres.NewForum s z).2 = none ∧
      (service.AddComplaint postgres.NewForum s z).1.complaints.filter
          (Complaint.isFor z.CommentId z.UserId)
        = [{ old with Message := old.Message ++ "\n" ++ z.Message }]) := by
  have hsvc : ∀ (s : DB) (z : Complaint),
      service.AddComplaint postgres.NewForum s z = postgres.AddComplaint s z := fun _ _ => rfl
  have hgen : ∀ (s : DB) (z : Complaint) (rows : List Complaint), s.faults = [] → rows ≠ [] →
      s.complaints.filter (Complaint.isFor z.CommentId z.UserId) = rows →
      (service.AddComplaint postgres.NewForum s z).2 = none ∧
      (service.AddComplaint postgres.NewForum s z).1.complaints.filter
          (Complaint.isFor z.CommentId z.UserId)
        = rows.map (fun r : Complaint => { r with Message := r.Message ++ "\n" ++ z.Message }) ∧
      (service.AddComplaint postgres.NewForum s z).1.complaints.filter
          (fun r => !Complaint.isFor z.CommentId z.UserId r)
        = s.complaints.filter (fun r => !Complaint.isFor z.CommentId z.UserId r) := by
    intro s z rows hs hne hrows
    have hany : s.complaints.any (Complaint.isFor z.CommentId z.UserId) = true := by
      rw [any_iff_count_pos, hrows]
      exact List.length_pos.2 hne
    rw [hsvc, postgres.AddComplaint_stmt_ok s z hs, if_pos hany]
    exact ⟨rfl, by rw [← hrows]; exact merge_filter _ _ _ _, merge_filter_others _ _ _ _⟩
  have hany : db.complaints.any (Complaint.isFor x.CommentId x.UserId) = false := by
    rw [Bool.eq_false_iff, ne_eq, any_iff_count_pos, h0]
    exact lt_irrefl 0
  have hfirst : service.AddComplaint postgres.NewForum db x
      = ({ db with complaints := db.complaints ++ [x] }, none) := by
    rw [hsvc, postgres.AddComplaint_stmt_ok db x hf, hany]
    rfl
  have hx : Complaint.isFor x.CommentId x.UserId x = true := by simp [Complaint.isFor]
  have hrows : (db.complaints ++ [x]).filter (Complaint.isFor x.CommentId x.UserId) = [x] := by
    rw [List.filter_append, h0]
    simp [List.filter_cons, hx]
  have hsecond := hgen { db with complaints := db.complaints ++ [x] } y [x] hf (by simp)
    (by rw [hc, hu]; exact hrows)
  rw [hc, hu] at hsecond
  rw [hfirst]
  refine ⟨rfl, hsecond.1, hsecond.2.1, ?_, ?_⟩
  · rw [hsecond.2.2]
    show (db.complaints ++ [x]).filter _ = _
    rw [List.filter_append]
    simp [List.filter_cons, hx]
  · intro s old z hs hold
    have h := hgen s z [old] hs (by simp) hold
    exact ⟨h.1, h.2.1⟩

/-- C11 at a state: empty tables, the messages `a` and `b` for the comment 1 and the
user 2, the calls under the row ids 5 and 6. -/
theorem C11_complaints_merge_witness :
    (service.AddComplaint postgres.NewForum
      (service.AddComplaint postgres.NewForum { likes := [], dislikes := [] }
        { Id := 5, CommentId := 1, UserId := 2, Message := "a" }).1
      { Id := 6, CommentId := 1, UserId := 2, Message := "b" }).1.complaints.filter
        (Complaint.isFor 1 2)
      = [{ Id := 5, CommentId := 1, UserId := 2, Message := "a\nb" }] :=
  (C11_complaints_merge { likes := [], dislikes := [] }
    { Id := 5, CommentId := 1, UserId := 2, Message := "a" }
    { Id := 6, CommentId := 1, UserId := 2, Message := "b" } rfl rfl rfl rfl).2.2.1

/-- C12: when the driver does not fail and the ids of the complaints are a key:
`DeleteComplaint` for an id that no row has returns the error `complaint not found`
and leaves the database as it is; for an id that a row has it returns no error,
the table keeps its other rows in their order and is one row shorter, and the
other tables are untouched. -/
theorem C12_deleteComplaint_strict (db : DB) (id : UUID) (hf : db.faults = [])
    (hkey : db.ComplaintKeys) :
    ((db.complaints.filter (fun r => r.Id == id)).length = 0 →
      service.DeleteComplaint postgres.NewForum db id = (db, some "complaint not found")) ∧
    ((db.complaints.filter (fun r => r.Id == id)).length ≠ 0 →
      (service.DeleteComplaint postgres.NewForum db id).2 = none ∧
      (service.DeleteComplaint postgres.NewForum db id).1.complaints
        = db.complaints.filter (fun r => !(r.Id == id)) ∧
      (service.DeleteComplaint postgres.NewForum db id).1.complaints.length + 1
        = db.complaints.length ∧
      (service.DeleteComplaint postgres.NewForum db id).1.likes = db.likes ∧
      (service.DeleteComplaint postgres.NewForum db id).1.dislikes = db.dislikes ∧
      (service.DeleteComplaint postgres.NewForum db id).1.comments = db.comments ∧
      (service.DeleteComplaint postgres.NewForum db id).1.faults = db.faults) := by
  have hsvc : service.DeleteComplaint postgres.NewForum db id
      = postgres.DeleteComplaint db id := rfl
  rw [hsvc, postgres.DeleteComplaint_stmt_ok db id hf]
  refine ⟨fun h0 => ?_, fun h1 => ?_⟩
  · rw [if_pos h0, delete_none (fun r : Complaint => r.Id == id) _ h0]
  · refine ⟨if_neg h1, rfl, ?_, rfl, rfl, rfl, rfl⟩
    have h2 := hkey id
    have h3 := count_delete_add (fun r : Complaint => r.Id == id) db.complaints
    show (db.complaints.filter (fun r => !(r.Id == id))).length + 1 = _
    omega

/-- C12 at a state: one complaint, under the id 5. -/
theorem C12_deleteComplaint_strict_witness :
    service.DeleteComplaint postgres.NewForum
        { likes := [], dislikes := [],
          complaints := [{ Id := 5, CommentId := 1, UserId := 2, Message := "a" }] } 6
      = ({ likes := [], dislikes := [],
           complaints := [{ Id := 5, CommentId := 1, UserId := 2, Message := "a" }] },
          some "complaint not found") ∧
    (service.DeleteComplaint postgres.NewForum
        { likes := [], dislikes := [],
          complaints := [{ Id := 5, CommentId := 1, UserId := 2, Message := "a" }] } 5).2
      = none ∧
    (service.DeleteComplaint postgres.NewForum
        { likes := [], dislikes := [],
          complaints := [{ Id := 5, CommentId := 1, UserId := 2, Message := "a" }] }
        5).1.complaints.length + 1 = 1 :=
  have h := fun id => C12_deleteComplaint_strict
    { likes := [], dislikes := [],
      complaints := [{ Id := 5, CommentId := 1, UserId := 2, Message := "a" }] } id rfl
    (fun _ => (List.filter_sublist _).length_le)
  ⟨(h 6).1 (by decide), ((h 5).2 (by decide)).1, ((h 5).2 (by decide)).2.2.1⟩


/-- C14: when the scan of the count fails with an error `e`, `CountLikes` and
`CountCommentsByArticle` of the service return the count 0 with NO error, whatever
the tables hold, while `CountDislikes` and `CountComplaints` return the count 0
with the error `e`. -/
theorem C14_count_failure_swallowed (db : DB) (e : String) (rest : List (Option String))
    (id : UUID) :
    (service.CountLikes postgres.NewForum { db with faults := some e :: rest } id).2
      = (0, none) ∧
    (service.CountCommentsByArticle postgres.NewForum { db with faults := some e :: rest } id).2
      = (0, none) ∧
    (service.CountDislikes postgres.NewForum { db with faults := some e :: rest } id).2
      = (0, some e) ∧
    (service.CountComplaints postgres.NewForum { db with faults := some e :: rest } id).2
      = (0, some e) ∧
    (service.CountLikes postgres.NewForum
      { likes := [{ Id := 7, CommentId := 1, UserId := 2 }], dislikes := [],
        faults := [some "driver: bad connection"] } 1).2 = (0, none) ∧
    (service.CountLikes postgres.NewForum
      { likes := [{ Id := 7, CommentId := 1, UserId := 2 }], dislikes := [] } 1).2
      = (1, none) :=
  ⟨rfl, rfl, rfl, rfl, by decide, by decide⟩

/-- C19: when the driver does not fail, `DeleteComment` of the service returns no
error, whether or not a comment has the id; on a table without a row of the id it
leaves the database as it is and still returns no error, while `DeleteLike`,
`DeleteDislike` and `DeleteComplaint` return their error for a missing row. -/
theorem C19_deleteComment_missing_row_no_error (db : DB) (id : UUID) :
    (service.DeleteComment postgres.NewForum { db with faults := [] } id).2 = none ∧
    service.DeleteComment postgres.NewForum
        { likes := [], dislikes := [], comments := [{ Id := 1, ThreadId := 1 }] } 5
      = ({ likes := [], dislikes := [], comments := [{ Id := 1, ThreadId := 1 }] }, none) ∧
    (service.DeleteLike postgres.NewForum
        { likes := [], dislikes := [], comments := [{ Id := 1, ThreadId := 1 }] }
        { CommentId := 1, UserId := 2 }).2 = some "like not found" ∧
    (service.DeleteDislike postgres.NewForum
        { likes := [], dislikes := [], comments := [{ Id := 1, ThreadId := 1 }] }
        { CommentId := 1, UserId := 2 }).2 = some "dislike not found" ∧
    (service.DeleteComplaint postgres.NewForum
        { likes := [], dislikes := [], comments := [{ Id := 1, ThreadId := 1 }] } 5).2
      = some "complaint not found" :=
  ⟨rfl, by decide, by decide, by decide, by decide⟩

/-- An insertion of a like that returns an error has left the tables as they were. -/
theorem postgres.AddLike_error (db s : DB) (like : Like) (e : String)
    (h : postgres.AddLike db like = (s, some e)) :
    s.likes = db.likes ∧ s.dislikes = db.dislikes := by
  obtain ⟨h1, h2, -, -⟩ := DB.nextFault_effect db
  unfold postgres.AddLike at h
  rcases hnf : db.nextFault with ⟨f, db1⟩
  rw [hnf] at h h1 h2
  cases f with
  | some e' =>
    simp only [Prod.mk.injEq] at h
    rw [← h.1]
    exact ⟨h1, h2⟩
  | none =>
    simp only at h
    split at h <;> simp at h

/-- A deletion of a dislike that returns no error has found a row of the pair and
has removed the rows of the pair. -/
theorem postgres.DeleteDislike_success (db s : DB) (dislike : Dislike)
    (h : postgres.DeleteDislike db dislike = (s, none)) :
    s.likes = db.likes ∧
    s.dislikes = db.dislikes.filter
      (fun r => !Dislike.isFor dislike.CommentId dislike.UserId r) ∧
    db.dislikeCount dislike.CommentId dislike.UserId ≠ 0 := by
  obtain ⟨h1, h2, -, -⟩ := DB.nextFault_effect db
  unfold postgres.DeleteDislike at h
  rcases hnf : db.nextFault with ⟨f, db1⟩
  rw [hnf] at h h1 h2
  simp only at h1 h2
  cases f with
  | some e' => simp at h
  | none =>
    simp only at h
    obtain ⟨g1, g2, -, -⟩ := DB.nextFault_effect
      { db1 with dislikes :=
          db1.dislikes.filter (fun r => !Dislike.isFor dislike.CommentId dislike.UserId r) }
    rcases hnf2 : DB.nextFault
      { db1 with dislikes :=
          db1.dislikes.filter (fun r => !Dislike.isFor dislike.CommentId dislike.UserId r) }
      with ⟨f2, db3⟩
    rw [hnf2] at h g1 g2
    simp only at g1 g2
    cases f2 with
    | some e' => simp at h
    | none =>
      simp only at h
      split at h
      · simp at h
      · next hne =>
        simp only [Prod.mk.injEq, and_true] at h
        subst h
        refine ⟨by rw [g1, h1], by rw [g2, h2], ?_⟩
        rw [DB.dislikeCount, ← h2]
        exact hne

/-- C18: in a database where no pair has a like row with a dislike row and the pair
`(c, u)` has a dislike row, when the repository's `DeleteDislike` called by
`AddLike` of the service succeeds and the insertion of the like after it fails with
an error `e`, `AddLike` returns `e` and the database it leaves has no like row and
no dislike row of the pair. -/
theorem C18_switch_not_atomic (db s1 s2 : DB) (like : Like) (e : String)
    (hex : db.Exclusive) (hhas : db.dislikeCount like.CommentId like.UserId ≠ 0)
    (hdel : postgres.DeleteDislike db { CommentId := like.CommentId, UserId := like.UserId }
      = (s1, none))
    (hins : postgres.AddLike s1 like = (s2, some e)) :
    service.AddLike postgres.NewForum db like = (s2, some e) ∧
    s2.likeCount like.CommentId like.UserId = 0 ∧
    s2.dislikeCount like.CommentId like.UserId = 0 := by
  obtain ⟨d1, d2, -⟩ := postgres.DeleteDislike_success db s1 _ hdel
  obtain ⟨a1, a2⟩ := postgres.AddLike_error s1 s2 like e hins
  refine ⟨?_, ?_, ?_⟩
  · simp only [service.AddLike, postgres.NewForum, hdel, hins]
  · rw [DB.likeCount, a1, d1]
    rcases hex like.CommentId like.UserId with h | h
    · exact h
    · exact absurd h hhas
  · rw [DB.dislikeCount, a2, d2]
    exact count_delete_self _ _

/-- C18 at a state: the user 2 has a dislike on the comment 1; the two driver calls
of the deletion succeed and the insertion fails. -/
theorem C18_switch_not_atomic_witness :
    service.AddLike postgres.NewForum
        { likes := [], dislikes := [{ Id := 7, CommentId := 1, UserId := 2 }],
          faults := [none, none, some "driver: bad connection"] }
        { Id := 8, CommentId := 1, UserId := 2 }
      = ({ likes := [], dislikes := [] }, some "driver: bad connection") ∧
    ({ likes := [], dislikes := [] } : DB).likeCount 1 2 = 0 ∧
    ({ likes := [], dislikes := [] } : DB).dislikeCount 1 2 = 0 :=
  C18_switch_not_atomic
    { likes := [], dislikes := [{ Id := 7, CommentId := 1, UserId := 2 }],
      faults := [none, none, some "driver: bad connection"] }
    { likes := [], dislikes := [], faults := [some "driver: bad connection"] }
    { likes := [], dislikes := [] }
    { Id := 8, CommentId := 1, UserId := 2 } "driver: bad connection"
    (fun _ _ => Or.inl rfl) (by decide) (by decide) (by decide)


/-! ## Forest builder: totality, root order, depth -/

/-- The second loop never meets a missing entry after the first loop. -/
theorem groupLoop_total (loopvar : Bool) (res : List Comment) :
    ∃ st, groupLoop (firstPass loopvar res) [] res = some st := by
  obtain ⟨st, hst, -⟩ := groupLoop_invariant (fun m _ rest => MapOk m rest)
    (by
      intro m roots val rest hok
      obtain ⟨node, hnode⟩ := hok.2 val (List.mem_cons_self _ _)
      rcases groupStep_cases m roots val node hnode with ⟨-, hs⟩ | ⟨-, p, hp, hs⟩ | ⟨-, -, hs⟩
      · exact ⟨_, hs, hok.tail⟩
      · exact ⟨_, hs, hok.tail.set_parent hp _⟩
      · exact ⟨_, hs, hok.tail⟩)
    res (firstPass loopvar res) [] (firstPass_ok loopvar res)
  exact ⟨st, hst⟩

/-- C15: for every list of comments, also an empty one and one with orphans,
repeated ids or thread ids that refer to each other, `FindComments` and
`FindCommentsByArticle` return a response, with the count of the input: no round of
the second loop finds the entry of its comment missing. -/
theorem C15_build_is_total (loopvar : Bool) (res : List Comment) :
    (∃ r, FindComments loopvar res = some r ∧ r.count = res.length) ∧
    (∃ r, FindCommentsByArticle loopvar res = some r ∧ r.count = res.length) := by
  obtain ⟨st, hst⟩ := groupLoop_total loopvar res
  exact ⟨⟨_, FindComments_of_groupLoop hst, rfl⟩,
    ⟨{ comments := st.2, count := res.length }, by simp [FindCommentsByArticle, hst], rfl⟩⟩

/-- C16: for every list of comments, the ids of the root-level nodes of the forest
are the ids of the comments that are thread roots (`thread_id == id`) or orphans
(`thread_id` is the id of no comment of the input), in the order of the input. -/
theorem C16_roots_in_input_order (loopvar : Bool) (res : List Comment) :
    ∃ r, FindComments loopvar res = some r ∧
      r.comments.map CommentNode.ID
        = (res.filter (fun c => decide (c.ThreadId = c.Id) ||
            decide (c.ThreadId ∉ res.map Comment.Id))).map Comment.Id := by
  obtain ⟨st, hst, done, hdone, -, -, hroots⟩ := groupLoop_invariant
    (fun m roots rest => ∃ done, done ++ rest = res ∧ MapOk m rest ∧
      (∀ k, m k = none ↔ k ∉ res.map Comment.Id) ∧
      roots.map CommentNode.ID
        = (done.filter (fun c => decide (c.ThreadId = c.Id) ||
            decide (c.ThreadId ∉ res.map Comment.Id))).map Comment.Id)
    (by
      intro m roots val rest ⟨done, hdone, hok, hdom, hroots⟩
      obtain ⟨node, hnode⟩ := hok.2 val (List.mem_cons_self _ _)
      have hid : node.ID = val.Id := hok.1 _ _ hnode
      have hdone' : (done ++ [val]) ++ rest = res := by rw [← hdone]; simp
      have hkeep : ∀ (hsel : (decide (val.ThreadId = val.Id) ||
            decide (val.ThreadId ∉ res.map Comment.Id)) = true),
          (roots ++ [node]).map CommentNode.ID
            = ((done ++ [val]).filter (fun c => decide (c.ThreadId = c.Id) ||
                decide (c.ThreadId ∉ res.map Comment.Id))).map Comment.Id := by
        intro hsel
        have hone : [val].filter (fun c => decide (c.ThreadId = c.Id) ||
            decide (c.ThreadId ∉ res.map Comment.Id)) = [val] := by
          rw [List.filter_cons, if_pos hsel]
          rfl
        rw [List.filter_append, hone, List.map_append, List.map_append, hroots]
        show _ ++ [node.ID] = _ ++ [val.Id]
        rw [hid]
      rcases groupStep_cases m roots val node hnode with ⟨ht, hs⟩ | ⟨ht, p, hp, hs⟩ | ⟨ht, hp, hs⟩
      · exact ⟨_, hs, done ++ [val], hdone', hok.tail, hdom,
          hkeep (by rw [Bool.or_eq_true]; exact Or.inl (decide_eq_true ht))⟩
      · refine ⟨_, hs, done ++ [val], hdone', hok.tail.set_parent hp _, ?_, ?_⟩
        · intro k
          dsimp only
          by_cases hk : k = val.ThreadId
          · subst hk
            rw [CommentMap.set_same]
            constructor
            · intro h; cases h
            · intro h
              rw [(hdom _).2 h] at hp
              cases hp
          · rw [CommentMap.set_other _ _ _ _ hk]
            exact hdom k
        · have hmem : val.ThreadId ∈ res.map Comment.Id := by
            by_contra h
            rw [(hdom _).2 h] at hp
            cases hp
          have hsel : (decide (val.ThreadId = val.Id) ||
              decide (val.ThreadId ∉ res.map Comment.Id)) = false := by
            rw [Bool.or_eq_false_iff]
            exact ⟨decide_eq_false ht, decide_eq_false (not_not.2 hmem)⟩
          have hzero : [val].filter (fun c => decide (c.ThreadId = c.Id) ||
              decide (c.ThreadId ∉ res.map Comment.Id)) = [] := by
            rw [List.filter_cons, if_neg (by rw [hsel]; exact Bool.false_ne_true)]
            rfl
          dsimp only
          rw [List.filter_append, hzero, List.append_nil, hroots]
      · exact ⟨_, hs, done ++ [val], hdone', hok.tail, hdom,
          hkeep (by rw [Bool.or_eq_true]; exact Or.inr (decide_eq_true ((hdom _).1 hp)))⟩)
    res (firstPass loopvar res) []
    ⟨[], by simp, firstPass_ok loopvar res, (by
      intro k
      constructor
      · intro h hk
        obtain ⟨c, hc⟩ := firstPass_mem loopvar res k hk
        rw [hc] at h
        cases h
      · exact firstPass_not_mem loopvar res k), by simp⟩
  have hall : done = res := by simpa using hdone
  subst hall
  exact ⟨_, FindComments_of_groupLoop hst, hroots⟩

/-- C13: with distinct ids in the input and every thread id the comment's own id or
the id of a thread root of the input, every node in the child list of a root-level
node of the forest has an empty child list. -/
theorem C13_two_levels (loopvar : Bool) (res : List Comment)
    (hnd : (res.map Comment.Id).Nodup)
    (hroot : ∀ c ∈ res, c.ThreadId = c.Id ∨
      ∃ p ∈ res, p.ThreadId = p.Id ∧ p.Id = c.ThreadId) :
    ∃ r, FindComments loopvar res = some r ∧
      ∀ n ∈ r.comments, ∀ ch ∈ n.Childs, ch.Childs = [] := by
  obtain ⟨st, hst, -, -, -, -, hfin⟩ := groupLoop_invariant
    (fun m roots rest => MapOk m rest ∧ (∀ c ∈ rest, c ∈ res) ∧
      (∀ k n, m k = some n → (∀ p ∈ res, p.ThreadId = p.Id → p.Id ≠ k) → n.Childs = []) ∧
      (∀ k n, m k = some n → ∀ ch ∈ n.Childs, ch.Childs = []) ∧
      ∀ n ∈ roots, ∀ ch ∈ n.Childs, ch.Childs = [])
    (by
      intro m roots val rest ⟨hok, hsub, hA, hB, hR⟩
      obtain ⟨node, hnode⟩ := hok.2 val (List.mem_cons_self _ _)
      have hval : val ∈ res := hsub val (List.mem_cons_self _ _)
      have hsub' : ∀ c ∈ rest, c ∈ res := fun c hc => hsub c (List.mem_cons_of_mem _ hc)
      have hR' : ∀ n ∈ roots ++ [node], ∀ ch ∈ n.Childs, ch.Childs = [] := by
        intro n hn
        rcases List.mem_append.1 hn with h | h
        · exact hR n h
        · rw [List.mem_singleton.1 h]; exact hB _ _ hnode
      rcases groupStep_cases m roots val node hnode with ⟨-, hs⟩ | ⟨ht, p, hp, hs⟩ | ⟨-, -, hs⟩
      · exact ⟨_, hs, hok.tail, hsub', hA, hB, hR'⟩
      · have hleaf : node.Childs = [] := by
          apply hA _ _ hnode
          intro q hq hqroot hqid
          have : q = val := List.inj_on_of_nodup_map hnd hq hval hqid
          subst this
          exact ht hqroot
        have hisroot : ∃ q ∈ res, q.ThreadId = q.Id ∧ q.Id = val.ThreadId := by
          rcases hroot val hval with h | h
          · exact absurd h ht
          · exact h
        refine ⟨_, hs, hok.tail.set_parent hp _, hsub', ?_, ?_, hR⟩
        · intro k n hk hnot
          dsimp only at hk
          by_cases hkk : k = val.ThreadId
          · subst hkk
            obtain ⟨q, hq, hqroot, hqid⟩ := hisroot
            exact absurd hqid (hnot q hq hqroot)
          · rw [CommentMap.set_other _ _ _ _ hkk] at hk
            exact hA k n hk hnot
        · intro k n hk ch hch
          dsimp only at hk
          by_cases hkk : k = val.ThreadId
          · subst hkk
            rw [CommentMap.set_same] at hk
            cases hk
            have hch' : ch ∈ p.Childs ++ [node] := hch
            rcases List.mem_append.1 hch' with h | h
            · exact hB _ _ hp ch h
            · rw [List.mem_singleton.1 h]; exact hleaf
          · rw [CommentMap.set_other _ _ _ _ hkk] at hk
            exact hB k n hk ch hch
      · exact ⟨_, hs, hok.tail, hsub', hA, hB, hR'⟩)
    res (firstPass loopvar res) []
    ⟨firstPass_ok loopvar res, fun _ h => h, (by
      intro k n hk _
      by_cases hmem : k ∈ res.map Comment.Id
      · obtain ⟨c, hc⟩ := firstPass_mem loopvar res k hmem
        rw [hc] at hk
        cases hk
        rfl
      · rw [firstPass_not_mem loopvar res k hmem] at hk
        cases hk), (by
      intro k n hk ch hch
      by_cases hmem : k ∈ res.map Comment.Id
      · obtain ⟨c, hc⟩ := firstPass_mem loopvar res k hmem
        rw [hc] at hk
        cases hk
        cases hch
      · rw [firstPass_not_mem loopvar res k hmem] at hk
        cases hk), by simp⟩
  exact ⟨_, FindComments_of_groupLoop hst, hfin⟩

/-- C13 at an input: the reply 3 to the reply 2 carries the thread id of the root 1
and the parent id 2. -/
theorem C13_two_levels_witness :
    ∃ r, FindComments true [{ Id := 3, ThreadId := 1, ParentId := 2 },
        { Id := 2, ThreadId := 1, ParentId := 1 }, { Id := 1, ThreadId := 1 }] = some r ∧
      ∀ n ∈ r.comments, ∀ ch ∈ n.Childs, ch.Childs = [] :=
  C13_two_levels true [{ Id := 3, ThreadId := 1, ParentId := 2 },
    { Id := 2, ThreadId := 1, ParentId := 1 }, { Id := 1, ThreadId := 1 }] (by decide)
    (by decide)


/-! ## Forest builder: the comment behind a node -/

/-- The first loop leaves, under every id of the input, a node whose comment is what
`&val` leads to for a comment of the input with that id. -/
theorem firstPass_fold_comment (f : Comment → Comment) (res : List Comment) (m0 : CommentMap)
    (k : UUID) (hk : k ∈ res.map Comment.Id) :
    ∃ c ∈ res, c.Id = k ∧
      res.foldl (fun m val => m.set val.Id (.mk val.Id (f val) [])) m0 k
        = some (.mk k (f c) []) := by
  induction res using List.reverseRecOn with
  | nil => simp at hk
  | append_singleton l a ih =>
    simp only [List.foldl_append, List.foldl_cons, List.foldl_nil]
    by_cases hka : k = a.Id
    · subst hka
      exact ⟨a, by simp, rfl, by simp [CommentMap.set]⟩
    · rw [CommentMap.set_other _ _ _ _ hka]
      have hkl : k ∈ l.map Comment.Id := by
        simp only [List.map_append, List.map_cons, List.map_nil, List.mem_append,
          List.mem_singleton] at hk
        rcases hk with h | h
        · exact h
        · exact absurd h hka
      obtain ⟨c, hc, hck, hfold⟩ := ih hkl
      exact ⟨c, List.mem_append_left _ hc, hck, hfold⟩

/-- With a loop variable per iteration (Go 1.22 and later) every node of the forest,
at every depth, holds a comment of the input whose id is the id of the node. -/
theorem FindComments_wraps_own_comment (res : List Comment) :
    ∃ r, FindComments true res = some r ∧
      ∀ n ∈ subtrees r.comments, n.Comment ∈ res ∧ n.Comment.Id = n.ID := by
  obtain ⟨st, hst, -, -, hfin⟩ := groupLoop_invariant
    (fun m roots rest => MapOk m rest ∧
      (∀ k n, m k = some n → ∀ x ∈ n.subtree, x.Comment ∈ res ∧ x.Comment.Id = x.ID) ∧
      ∀ x ∈ subtrees roots, x.Comment ∈ res ∧ x.Comment.Id = x.ID)
    (by
      intro m roots val rest ⟨hok, hmap, hroots⟩
      obtain ⟨node, hnode⟩ := hok.2 val (List.mem_cons_self _ _)
      have hgrow : ∀ x, x ∈ subtrees (roots ++ [node]) →
          x.Comment ∈ res ∧ x.Comment.Id = x.ID := by
        intro x hx
        rcases (mem_subtrees_append_singleton _ _ _).1 hx with h | h
        · exact hroots x h
        · exact hmap _ _ hnode x h
      rcases groupStep_cases m roots val node hnode with ⟨-, hs⟩ | ⟨-, p, hp, hs⟩ | ⟨-, -, hs⟩
      · exact ⟨_, hs, hok.tail, hmap, hgrow⟩
      · refine ⟨_, hs, hok.tail.set_parent hp _, ?_, hroots⟩
        intro k n hk x hx
        dsimp only at hk
        by_cases hkk : k = val.ThreadId
        · subst hkk
          rw [CommentMap.set_same] at hk
          cases hk
          rcases (mem_subtree_iff _ _).1 hx with rfl | hx'
          · exact hmap _ _ hp p ((mem_subtree_iff _ _).2 (Or.inl rfl))
          · have hx'' : x ∈ subtrees (p.Childs ++ [node]) := hx'
            rcases (mem_subtrees_append_singleton _ _ _).1 hx'' with h | h
            · exact hmap _ _ hp x ((mem_subtree_iff _ _).2 (Or.inr h))
            · exact hmap _ _ hnode x h
        · rw [CommentMap.set_other _ _ _ _ hkk] at hk
          exact hmap k n hk x hx
      · exact ⟨_, hs, hok.tail, hmap, hgrow⟩)
    res (firstPass true res) []
    ⟨firstPass_ok true res, (by
      intro k n hk x hx
      by_cases hmem : k ∈ res.map Comment.Id
      · obtain ⟨c, hc, hck, hfold⟩ :=
          firstPass_fold_comment (pointee true res) res (fun _ => none) k hmem
        have hfold' : firstPass true res k = some (.mk k (pointee true res c) []) := hfold
        rw [hfold'] at hk
        cases hk
        simp [CommentNode.subtree, subtrees] at hx
        subst hx
        exact ⟨hc, hck⟩
      · rw [firstPass_not_mem true res k hmem] at hk
        cases hk), by simp [subtrees]⟩
  exact ⟨_, FindComments_of_groupLoop hst, hfin⟩

/-- The two semantics of the loop variable on the comments `[{id 1, thread 1,
"first"}, {id 2, thread 2, "second"}]`: with the single loop variable of Go before
1.22 the two root-level nodes, of both handlers, would hold the comment 2, the last
of the input; with a loop variable per iteration each node holds its own. -/
theorem loop_variable_example :
    (FindComments false [{ Id := 1, ThreadId := 1, Author := "ann", Content := "first" },
        { Id := 2, ThreadId := 2, Author := "bob", Content := "second" }]).map
      (fun r => r.comments.map (fun n => (n.ID, n.Comment.Id, n.Comment.Content)))
      = some [(1, 2, "second"), (2, 2, "second")] ∧
    (FindCommentsByArticle false
        [{ Id := 1, ThreadId := 1, Author := "ann", Content := "first" },
        { Id := 2, ThreadId := 2, Author := "bob", Content := "second" }]).map
      (fun r => r.comments.map (fun n => (n.ID, n.Comment.Id, n.Comment.Content)))
      = some [(1, 2, "second"), (2, 2, "second")] ∧
    (FindComments true [{ Id := 1, ThreadId := 1, Author := "ann", Content := "first" },
        { Id := 2, ThreadId := 2, Author := "bob", Content := "second" }]).map
      (fun r => r.comments.map (fun n => (n.ID, n.Comment.Id, n.Comment.Content)))
      = some [(1, 1, "first"), (2, 2, "second")] :=
  ⟨by decide, by decide, by decide⟩

/-- C17: with a loop variable per iteration (Go 1.22 and later) and distinct ids in
the input, every node of the forest of both handlers, at root level and in the
child lists at every depth, wraps its own comment: the node's comment is a comment
of the input, its id is the node's id, and it is the one comment of the input with
that id, so its author, content and thread id are that comment's. -/
theorem C17_nodes_wrap_own_comment (res : List Comment)
    (hnd : (res.map Comment.Id).Nodup) :
    ∃ r, FindComments true res = some r ∧ FindCommentsByArticle true res = some r ∧
      ∀ n ∈ subtrees r.comments,
        n.Comment ∈ res ∧ n.Comment.Id = n.ID ∧ ∀ c ∈ res, c.Id = n.ID → n.Comment = c := by
  obtain ⟨r, hr, hwrap⟩ := FindComments_wraps_own_comment res
  refine ⟨r, hr, hr, fun n hn => ?_⟩
  obtain ⟨hmem, hid⟩ := hwrap n hn
  exact ⟨hmem, hid, fun c hc hcid =>
    List.inj_on_of_nodup_map hnd hmem hc (hid.trans hcid.symm)⟩

/-- C17 at an input: a reply with its author and content before its thread root. -/
theorem C17_nodes_wrap_own_comment_witness :
    ∃ r, FindComments true [{ Id := 2, ThreadId := 1, Author := "bob", Content := "second" },
        { Id := 1, ThreadId := 1, Author := "ann", Content := "first" }] = some r ∧
      FindCommentsByArticle true
        [{ Id := 2, ThreadId := 1, Author := "bob", Content := "second" },
        { Id := 1, ThreadId := 1, Author := "ann", Content := "first" }] = some r ∧
      ∀ n ∈ subtrees r.comments,
        n.Comment ∈ ([{ Id := 2, ThreadId := 1, Author := "bob", Content := "second" },
          { Id := 1, ThreadId := 1, Author := "ann", Content := "first" }] : List Comment) ∧
        n.Comment.Id = n.ID ∧
        ∀ c ∈ ([{ Id := 2, ThreadId := 1, Author := "bob", Content := "second" },
          { Id := 1, ThreadId := 1, Author := "ann", Content := "first" }] : List Comment),
          c.Id = n.ID → n.Comment = c :=
  C17_nodes_wrap_own_comment
    [{ Id := 2, ThreadId := 1, Author := "bob", Content := "second" },
      { Id := 1, ThreadId := 1, Author := "ann", Content := "first" }] (by decide)


/-! ## Reaction coordinator: interleaved switches -/

/-- Without a failure of the driver the two steps of `AddLike` make up the call of
the service. -/
theorem runSteps_AddLikeSteps (db : DB) (like : Like) (hf : db.faults = []) :
    runSteps db (AddLikeSteps like) = (service.AddLike postgres.NewForum db like).1 := by
  have h2 := postgres.AddLike_stmt_ok
    { db with dislikes :=
        db.dislikes.filter (fun r => !Dislike.isFor like.CommentId like.UserId r) } like hf
  show (postgres.AddLike (postgres.DeleteDislike db _).1 like).1 = _
  rw [service.AddLike_ok db like hf, postgres.DeleteDislike_stmt_ok db _ hf]
  simp only
  rw [h2]

/-- Without a failure of the driver the two steps of `AddDislike` make up the call
of the service. -/
theorem runSteps_AddDislikeSteps (db : DB) (dislike : Dislike) (hf : db.faults = []) :
    runSteps db (AddDislikeSteps dislike)
      = (service.AddDislike postgres.NewForum db dislike).1 := by
  have h2 := postgres.AddDislike_stmt_ok
    { db with likes :=
        db.likes.filter (fun r => !Like.isFor dislike.CommentId dislike.UserId r) } dislike hf
  show (postgres.AddDislike (postgres.DeleteLike db _).1 dislike).1 = _
  rw [service.AddDislike_ok db dislike hf, postgres.DeleteLike_stmt_ok db _ hf]
  simp only
  rw [h2]

theorem runSteps_append (db : DB) (a b : List SwitchStep) :
    runSteps db (a ++ b) = runSteps (runSteps db a) b := by
  simp [runSteps, List.foldl_append]

/-- C20: when the driver does not fail, with `AddLike(c,u)` as the steps delete
dislike, insert like and `AddDislike(c,u)` as the steps delete like, insert dislike
(the steps of a call, run alone, are the call of the service): the interleaving
delete dislike, delete like, insert like, insert dislike ends with one like row and
one dislike row of the pair, while `AddLike` followed by `AddDislike` ends without a
like row of the pair and `AddDislike` followed by `AddLike` ends without a dislike
row of the pair. -/
theorem C20_interleaved_switches (db : DB) (like : Like) (dislike : Dislike)
    (hf : db.faults = []) (hc : dislike.CommentId = like.CommentId)
    (hu : dislike.UserId = like.UserId) :
    (runSteps db (AddLikeSteps like) = (service.AddLike postgres.NewForum db like).1 ∧
      runSteps db (AddDislikeSteps dislike)
        = (service.AddDislike postgres.NewForum db dislike).1) ∧
    (∃ sched, Interleaving (AddLikeSteps like) (AddDislikeSteps dislike) sched ∧
      (runSteps db sched).likeCount like.CommentId like.UserId = 1 ∧
      (runSteps db sched).dislikeCount like.CommentId like.UserId = 1) ∧
    (runSteps db (AddLikeSteps like ++ AddDislikeSteps dislike)
        = (service.AddDislike postgres.NewForum
            (service.AddLike postgres.NewForum db like).1 dislike).1 ∧
      (runSteps db (AddLikeSteps like ++ AddDislikeSteps dislike)).likeCount
        like.CommentId like.UserId = 0) ∧
    (runSteps db (AddDislikeSteps dislike ++ AddLikeSteps like)
        = (service.AddLike postgres.NewForum
            (service.AddDislike postgres.NewForum db dislike).1 like).1 ∧
      (runSteps db (AddDislikeSteps dislike ++ AddLikeSteps like)).dislikeCount
        like.CommentId like.UserId = 0) := by
  refine ⟨⟨runSteps_AddLikeSteps db like hf, runSteps_AddDislikeSteps db dislike hf⟩, ?_, ?_, ?_⟩
  · refine ⟨[.deleteDislike { CommentId := like.CommentId, UserId := like.UserId },
      .deleteLike { CommentId := dislike.CommentId, UserId := dislike.UserId },
      .insertLike like, .insertDislike dislike],
      Interleaving.left _ (Interleaving.right _ (Interleaving.left _
        (Interleaving.right _ Interleaving.nil))), ?_⟩
    have e1 := postgres.DeleteDislike_stmt_ok db
      { CommentId := like.CommentId, UserId := like.UserId } hf
    have e2 := postgres.DeleteLike_stmt_ok
      { db with dislikes :=
          db.dislikes.filter (fun r => !Dislike.isFor like.CommentId like.UserId r) }
      { CommentId := like.CommentId, UserId := like.UserId } hf
    have e3 := postgres.AddLike_stmt_ok
      { db with
        likes := db.likes.filter (fun r => !Like.isFor like.CommentId like.UserId r)
        dislikes :=
          db.dislikes.filter (fun r => !Dislike.isFor like.CommentId like.UserId r) } like hf
    have e4 := postgres.AddDislike_stmt_ok
      { db with
        likes := db.likes.filter (fun r => !Like.isFor like.CommentId like.UserId r) ++ [like]
        dislikes :=
          db.dislikes.filter (fun r => !Dislike.isFor like.CommentId like.UserId r) }
      dislike hf
    simp only [any_delete_false, Bool.false_eq_true, if_false] at e3
    simp only [hc, hu, any_delete_false, Bool.false_eq_true, if_false] at e4
    have hrun : runSteps db
        [.deleteDislike { CommentId := like.CommentId, UserId := like.UserId },
          .deleteLike { CommentId := dislike.CommentId, UserId := dislike.UserId },
          .insertLike like, .insertDislike dislike]
        = { db with
            likes := db.likes.filter (fun r => !Like.isFor like.CommentId like.UserId r)
              ++ [like]
            dislikes :=
              db.dislikes.filter (fun r => !Dislike.isFor like.CommentId like.UserId r)
              ++ [dislike] } := by
      simp only [runSteps, List.foldl_cons, List.foldl_nil, SwitchStep.run, hc, hu, e1, e2, e3,
        e4]
    rw [hrun]
    constructor
    · rw [DB.likeCount]
      show ((db.likes.filter _ ++ [like]).filter _).length = 1
      rw [count_insert, count_delete_self]
      simp [Like.isFor]
    · rw [DB.dislikeCount]
      show ((db.dislikes.filter _ ++ [dislike]).filter _).length = 1
      rw [count_insert, count_delete_self]
      simp [Dislike.isFor, hc, hu]
  · obtain ⟨-, af, -, -⟩ := service.AddLike_effect db like hf
    have hseq : runSteps db (AddLikeSteps like ++ AddDislikeSteps dislike)
        = (service.AddDislike postgres.NewForum
            (service.AddLike postgres.NewForum db like).1 dislike).1 := by
      rw [runSteps_append, runSteps_AddLikeSteps db like hf, runSteps_AddDislikeSteps _ dislike af]
    refine ⟨hseq, ?_⟩
    obtain ⟨-, -, bl, -⟩ := service.AddDislike_effect _ dislike af
    rw [hseq, DB.likeCount, bl, hc, hu, count_delete_self]
  · obtain ⟨-, af, -, -⟩ := service.AddDislike_effect db dislike hf
    have hseq : runSteps db (AddDislikeSteps dislike ++ AddLikeSteps like)
        = (service.AddLike postgres.NewForum
            (service.AddDislike postgres.NewForum db dislike).1 like).1 := by
      rw [runSteps_append, runSteps_AddDislikeSteps db dislike hf, runSteps_AddLikeSteps _ like af]
    refine ⟨hseq, ?_⟩
    obtain ⟨-, -, bd, -⟩ := service.AddLike_effect _ like af
    rw [hseq, DB.dislikeCount, bd, count_delete_self]

/-- C20 at a state: empty tables, the comment 1 and the user 2. -/
theorem C20_interleaved_switches_witness :
    ∃ sched, Interleaving (AddLikeSteps { Id := 8, CommentId := 1, UserId := 2 })
        (AddDislikeSteps { Id := 9, CommentId := 1, UserId := 2 }) sched ∧
      (runSteps { likes := [], dislikes := [] } sched).likeCount 1 2 = 1 ∧
      (runSteps { likes := [], dislikes := [] } sched).dislikeCount 1 2 = 1 :=
  (C20_interleaved_switches { likes := [], dislikes := [] }
    { Id := 8, CommentId := 1, UserId := 2 } { Id := 9, CommentId := 1, UserId := 2 }
    rfl rfl rfl).2.1


/-! ## Counting and listing the comments of an article -/

theorem postgres.scanRows_ok (db : DB) (h : db.faults = []) (rows acc : List Comment) :
    postgres.scanRows db acc rows = (db, acc ++ rows, none) := by
  induction rows generalizing acc with
  | nil => simp [postgres.scanRows]
  | cons row rows ih =>
    simp only [postgres.scanRows, DB.nextFault_nil db h]
    rw [ih]
    simp

theorem postgres.FindCommentsByArticle_stmt_ok (db : DB) (a : UUID) (h : db.faults = []) :
    postgres.FindCommentsByArticle db a
      = (db, (db.comments.filter (fun r => r.ArticleId == a && !r.Deleted)).insertionSort
          (fun x y : Comment => y.Created ≤ x.Created), none) := by
  simp only [postgres.FindCommentsByArticle, DB.nextFault_nil db h]
  rw [postgres.scanRows_ok db h]
  simp

theorem postgres.CountCommentsByArticle_stmt_ok (db : DB) (a : UUID) (h : db.faults = []) :
    postgres.CountCommentsByArticle db a
      = (db, (db.comments.filter (fun r => r.ArticleId == a)).length, none) := by
  simp only [postgres.CountCommentsByArticle, DB.nextFault_nil db h]

theorem postgres.DeleteComment_stmt_ok (db : DB) (id : UUID) (h : db.faults = []) :
    postgres.DeleteComment db id
      = ({ db with comments := (List.map
            (fun r : Comment => if r.Id = id then ({ r with Deleted := true } : Comment) else r)
            db.comments) },
          none) := by
  simp only [postgres.DeleteComment, DB.nextFault_nil db h]

/-- A table splits into the rows that carry the flag and those that do not. -/
theorem count_split {α : Type} (p q : α → Bool) (l : List α) :
    (l.filter p).length
      = (l.filter (fun r => p r && !q r)).length + (l.filter (fun r => p r && q r)).length := by
  induction l with
  | nil => rfl
  | cons x l ih =>
    cases hp : p x <;> cases hq : q x <;> simp [List.filter_cons, hp, hq, ih] <;> omega

/-- Under a key, the row of an id is alone: the table is the rows before it, the
row, and the rows after it, none of which has the id. -/
theorem key_split (l : List Comment) (c : Comment) (hc : c ∈ l)
    (hkey : (l.filter (fun r => r.Id == c.Id)).length ≤ 1) :
    ∃ s t, l = s ++ c :: t ∧ (∀ r ∈ s, r.Id ≠ c.Id) ∧ ∀ r ∈ t, r.Id ≠ c.Id := by
  obtain ⟨s, t, rfl⟩ := List.append_of_mem hc
  refine ⟨s, t, rfl, ?_, ?_⟩
  · intro r hr hid
    have hmem : r ∈ s.filter (fun r => r.Id == c.Id) := List.mem_filter.2 ⟨hr, by simp [hid]⟩
    have hpos := List.length_pos_of_mem hmem
    simp [List.filter_append, List.filter_cons] at hkey
    omega
  · intro r hr hid
    have hmem : r ∈ t.filter (fun r => r.Id == c.Id) := List.mem_filter.2 ⟨hr, by simp [hid]⟩
    have hpos := List.length_pos_of_mem hmem
    simp [List.filter_append, List.filter_cons] at hkey
    omega

/-- The update of `DeleteComment` on rows without the id changes nothing. -/
theorem mark_other (id : UUID) (l : List Comment) (h : ∀ r ∈ l, r.Id ≠ id) :
    l.map (fun r : Comment => if r.Id = id then ({ r with Deleted := true } : Comment) else r)
      = l := by
  induction l with
  | nil => rfl
  | cons x l ih =>
    rw [List.map_cons, ih (fun r hr => h r (List.mem_cons_of_mem _ hr)),
      if_neg (h x (List.mem_cons_self _ _))]

/-- Rows with distinct ids obey the key. -/
theorem keys_of_nodup (l : List Comment) (h : (l.map Comment.Id).Nodup) (id : UUID) :
    (l.filter (fun r => r.Id == id)).length ≤ 1 := by
  induction l with
  | nil => simp
  | cons x l ih =>
    rw [List.map_cons, List.nodup_cons] at h
    by_cases hx : x.Id = id
    · have hnone : l.filter (fun r => r.Id == id) = [] := by
        rw [List.filter_eq_nil_iff]
        intro r hr hrid
        have hrid' : r.Id = id := by simpa using hrid
        exact h.1 (by rw [hx, ← hrid']; exact List.mem_map_of_mem _ hr)
      simp [List.filter_cons, hx, hnone]
    · have hrec := ih h.2
      have hx' : (x.Id == id) = false := by simpa using hx
      rw [List.filter_cons, hx']
      exact hrec

/-- C23, as amended: when the driver does not fail, `CountCommentsByArticle(a)`
returns the number of all stored comments of the article `a`, deleted or not, and
`FindCommentsByArticle(a)` returns exactly the comments of `a` that are not deleted,
so the count is the number of comments listed plus the number of deleted comments of
`a`. With the ids of the comments a key, after `DeleteComment` on a comment of `a`
the count is what it was, and the listing is one comment shorter when the comment
was not deleted before, and the same when it was. -/
theorem C23_count_ignores_deleted_flag (db : DB) (a : UUID) (c : Comment)
    (hf : db.faults = []) (hkey : db.CommentKeys) (hc : c ∈ db.comments)
    (ha : c.ArticleId = a) :
    (service.CountCommentsByArticle postgres.NewForum db a).2
      = ((db.comments.filter (fun r => r.ArticleId == a)).length, none) ∧
    (service.FindCommentsByArticle postgres.NewForum db a).2.2 = none ∧
    (∀ x, x ∈ (service.FindCommentsByArticle postgres.NewForum db a).2.1 ↔
      x ∈ db.comments ∧ x.ArticleId = a ∧ x.Deleted = false) ∧
    (service.CountCommentsByArticle postgres.NewForum db a).2.1
      = (service.FindCommentsByArticle postgres.NewForum db a).2.1.length
        + (db.comments.filter (fun r => r.ArticleId == a && r.Deleted)).length ∧
    (service.DeleteComment postgres.NewForum db c.Id).2 = none ∧
    (service.CountCommentsByArticle postgres.NewForum
        (service.DeleteComment postgres.NewForum db c.Id).1 a).2
      = (service.CountCommentsByArticle postgres.NewForum db a).2 ∧
    (c.Deleted = false →
      (service.FindCommentsByArticle postgres.NewForum
          (service.DeleteComment postgres.NewForum db c.Id).1 a).2.1.length + 1
        = (service.FindCommentsByArticle postgres.NewForum db a).2.1.length) ∧
    (c.Deleted = true →
      (service.FindCommentsByArticle postgres.NewForum
          (service.DeleteComment postgres.NewForum db c.Id).1 a).2.1
        = (service.FindCommentsByArticle postgres.NewForum db a).2.1) := by
  have hcount : ∀ s : DB, s.faults = [] →
      service.CountCommentsByArticle postgres.NewForum s a
        = (s, (s.comments.filter (fun r => r.ArticleId == a)).length, none) :=
    fun s hs => postgres.CountCommentsByArticle_stmt_ok s a hs
  have hlist : ∀ s : DB, s.faults = [] →
      service.FindCommentsByArticle postgres.NewForum s a
        = (s, (s.comments.filter (fun r => r.ArticleId == a && !r.Deleted)).insertionSort
            (fun x y : Comment => y.Created ≤ x.Created), none) :=
    fun s hs => postgres.FindCommentsByArticle_stmt_ok s a hs
  have hdel : service.DeleteComment postgres.NewForum db c.Id
      = ({ db with comments := (List.map
            (fun r : Comment =>
              if r.Id = c.Id then ({ r with Deleted := true } : Comment) else r)
            db.comments) }, none) :=
    postgres.DeleteComment_stmt_ok db c.Id hf
  obtain ⟨s, t, hst, hs, ht⟩ := key_split db.comments c hc (hkey c.Id)
  have hmap : List.map
      (fun r : Comment => if r.Id = c.Id then ({ r with Deleted := true } : Comment) else r)
      db.comments = s ++ ({ c with Deleted := true } : Comment) :: t := by
    rw [hst, List.map_append, List.map_cons, mark_other c.Id s hs, mark_other c.Id t ht,
      if_pos rfl]
  have hcount' := hcount
    { db with comments := (List.map
        (fun r : Comment => if r.Id = c.Id then ({ r with Deleted := true } : Comment) else r)
        db.comments) } hf
  have hlist' := hlist
    { db with comments := (List.map
        (fun r : Comment => if r.Id = c.Id then ({ r with Deleted := true } : Comment) else r)
        db.comments) } hf
  refine ⟨?_, ?_, ?_, ?_, ?_, ?_, ?_, ?_⟩
  · rw [hcount db hf]
  · rw [hlist db hf]
  · intro x
    rw [hlist db hf]
    simp only [List.mem_insertionSort, List.mem_filter, Bool.and_eq_true, beq_iff_eq,
      Bool.not_eq_true', and_assoc]
  · rw [hcount db hf, hlist db hf]
    simp only [List.length_insertionSort]
    exact count_split (fun r : Comment => r.ArticleId == a) (fun r => r.Deleted) db.comments
  · rw [hdel]
  · rw [hdel, hcount', hcount db hf]
    simp only [hmap]
    rw [hst]
    simp [List.filter_append, List.filter_cons, ha]
  · intro hlive
    rw [hdel, hlist', hlist db hf]
    simp only [hmap, List.length_insertionSort]
    rw [hst]
    simp [List.filter_append, List.filter_cons, ha, hlive]
    omega
  · intro hdead
    have hsame : ({ c with Deleted := true } : Comment) = c := by
      cases c
      simp only at hdead
      subst hdead
      rfl
    rw [hdel, hlist', hlist db hf]
    simp only [hmap, hsame]
    rw [← hst]

/-- C23 as stated fails on a comment that is deleted already: on the article 4 with
the comments 1 and 2, after a first `DeleteComment(1)` the listing has one comment;
a second `DeleteComment(1)`, on a comment of the article, returns no error and the
listing still has one comment, so it has not shrunk by one, and the count is 2
throughout. -/
theorem C23_second_delete_keeps_listing :
    ({ Id := 1, ArticleId := 4, ThreadId := 1, Created := 10, Deleted := true } : Comment)
      ∈ (service.DeleteComment postgres.NewForum
          { likes := [], dislikes := [],
            comments := [{ Id := 1, ArticleId := 4, ThreadId := 1, Created := 10 },
              { Id := 2, ArticleId := 4, ThreadId := 1, Created := 20 }] } 1).1.comments ∧
    (service.DeleteComment postgres.NewForum
        (service.DeleteComment postgres.NewForum
          { likes := [], dislikes := [],
            comments := [{ Id := 1, ArticleId := 4, ThreadId := 1, Created := 10 },
              { Id := 2, ArticleId := 4, ThreadId := 1, Created := 20 }] } 1).1 1).2 = none ∧
    (service.FindCommentsByArticle postgres.NewForum
        (service.DeleteComment postgres.NewForum
          { likes := [], dislikes := [],
            comments := [{ Id := 1, ArticleId := 4, ThreadId := 1, Created := 10 },
              { Id := 2, ArticleId := 4, ThreadId := 1, Created := 20 }] } 1).1 4).2.1.length
      = 1 ∧
    (service.FindCommentsByArticle postgres.NewForum
        (service.DeleteComment postgres.NewForum
          (service.DeleteComment postgres.NewForum
            { likes := [], dislikes := [],
              comments := [{ Id := 1, ArticleId := 4, ThreadId := 1, Created := 10 },
                { Id := 2, ArticleId := 4, ThreadId := 1, Created := 20 }] } 1).1 1).1
        4).2.1.length = 1 ∧
    ¬ ((service.FindCommentsByArticle postgres.NewForum
        (service.DeleteComment postgres.NewForum
          (service.DeleteComment postgres.NewForum
            { likes := [], dislikes := [],
              comments := [{ Id := 1, ArticleId := 4, ThreadId := 1, Created := 10 },
                { Id := 2, ArticleId := 4, ThreadId := 1, Created := 20 }] } 1).1 1).1
        4).2.1.length + 1
      = (service.FindCommentsByArticle postgres.NewForum
        (service.DeleteComment postgres.NewForum
          { likes := [], dislikes := [],
            comments := [{ Id := 1, ArticleId := 4, ThreadId := 1, Created := 10 },
              { Id := 2, ArticleId := 4, ThreadId := 1, Created := 20 }] } 1).1
        4).2.1.length) ∧
    (service.CountCommentsByArticle postgres.NewForum
        (service.DeleteComment postgres.NewForum
          (service.DeleteComment postgres.NewForum
            { likes := [], dislikes := [],
              comments := [{ Id := 1, ArticleId := 4, ThreadId := 1, Created := 10 },
                { Id := 2, ArticleId := 4, ThreadId := 1, Created := 20 }] } 1).1 1).1
        4).2 = (2, none) :=
  ⟨by decide, by decide, by decide, by decide, by decide, by decide⟩

/-- C23 at a state: the article 4 has the comments 1 and 2, and the comment 3, which
is deleted; the comment 2 gets deleted. -/
theorem C23_count_ignores_deleted_flag_witness :
    (service.CountCommentsByArticle postgres.NewForum
        { likes := [], dislikes := [],
          comments := [{ Id := 1, ArticleId := 4, ThreadId := 1, Created := 10 },
            { Id := 2, ArticleId := 4, ThreadId := 1, Created := 20 },
            { Id := 3, ArticleId := 4, ThreadId := 1, Created := 30, Deleted := true }] } 4).2
      = (3, none) ∧
    (service.FindCommentsByArticle postgres.NewForum
        (service.DeleteComment postgres.NewForum
          { likes := [], dislikes := [],
            comments := [{ Id := 1, ArticleId := 4, ThreadId := 1, Created := 10 },
              { Id := 2, ArticleId := 4, ThreadId := 1, Created := 20 },
              { Id := 3, ArticleId := 4, ThreadId := 1, Created := 30, Deleted := true }] }
          2).1 4).2.1.length + 1
      = (service.FindCommentsByArticle postgres.NewForum
          { likes := [], dislikes := [],
            comments := [{ Id := 1, ArticleId := 4, ThreadId := 1, Created := 10 },
              { Id := 2, ArticleId := 4, ThreadId := 1, Created := 20 },
              { Id := 3, ArticleId := 4, ThreadId := 1, Created := 30, Deleted := true }] }
          4).2.1.length :=
  have h := C23_count_ignores_deleted_flag
    { likes := [], dislikes := [],
      comments := [{ Id := 1, ArticleId := 4, ThreadId := 1, Created := 10 },
        { Id := 2, ArticleId := 4, ThreadId := 1, Created := 20 },
        { Id := 3, ArticleId := 4, ThreadId := 1, Created := 30, Deleted := true }] }
    4 { Id := 2, ArticleId := 4, ThreadId := 1, Created := 20 } rfl
    (fun id => keys_of_nodup _ (by decide) id)
    (by simp) rfl
  ⟨h.1, h.2.2.2.2.2.2.1 rfl⟩


/-! ## Forest builder: no id twice -/

theorem pendingIds_firstPass (loopvar : Bool) (res l : List Comment) :
    pendingIds (firstPass loopvar res) l = [] := by
  induction l with
  | nil => rfl
  | cons c l ih =>
    rw [pendingIds, ih, List.append_nil]
    by_cases hmem : c.Id ∈ res.map Comment.Id
    · obtain ⟨x, hx⟩ := firstPass_mem loopvar res c.Id hmem
      rw [hx]
      rfl
    · rw [firstPass_not_mem loopvar res c.Id hmem]

/-- A write under a key of none of the comments to come leaves their pending ids. -/
theorem pendingIds_set_other (m : CommentMap) (t : UUID) (n : CommentNode) (l : List Comment)
    (ht : t ∉ l.map Comment.Id) : pendingIds (m.set t n) l = pendingIds m l := by
  induction l with
  | nil => rfl
  | cons c l ih =>
    rw [List.map_cons, List.mem_cons, not_or] at ht
    rw [pendingIds, pendingIds, ih ht.2, CommentMap.set_other _ _ _ _ (fun h => ht.1 h.symm)]

/-- Appending children to the node of a comment to come adds their ids to the
pending ids. -/
theorem pendingIds_set_mem (m : CommentMap) (t : UUID) (p : CommentNode)
    (x : List CommentNode) (l : List Comment) (hnd : (l.map Comment.Id).Nodup)
    (ht : t ∈ l.map Comment.Id) (hp : m t = some p) :
    (pendingIds (m.set t (.mk p.ID p.Comment (p.Childs ++ x))) l).Perm
      (pendingIds m l ++ forestIds x) := by
  induction l with
  | nil => simp at ht
  | cons c l ih =>
    rw [List.map_cons, List.nodup_cons] at hnd
    by_cases hc : c.Id = t
    · have htl : t ∉ l.map Comment.Id := hc ▸ hnd.1
      rw [pendingIds, pendingIds, pendingIds_set_other _ _ _ _ htl, hc, CommentMap.set_same, hp]
      show (forestIds (p.Childs ++ x) ++ pendingIds m l).Perm _
      rw [forestIds_append, List.append_assoc, List.append_assoc]
      exact List.Perm.append_left _ List.perm_append_comm
    · have htl : t ∈ l.map Comment.Id := by
        rw [List.map_cons, List.mem_cons] at ht
        rcases ht with h | h
        · exact absurd h.symm hc
        · exact h
      rw [pendingIds, pendingIds, CommentMap.set_other _ _ _ _ hc, List.append_assoc]
      exact List.Perm.append_left _ (ih hnd.2 htl)

/-- With distinct ids in the input, no id occurs twice among the nodes of the forest,
counted at every depth, and every id of the forest is an id of the input. -/
theorem forestIds_nodup (loopvar : Bool) (res : List Comment)
    (hnd : (res.map Comment.Id).Nodup) :
    ∃ st, groupLoop (firstPass loopvar res) [] res = some st ∧
      (forestIds st.2).Nodup ∧ ∀ i ∈ forestIds st.2, i ∈ res.map Comment.Id := by
  obtain ⟨st, hst, done, hdone, -, hlive, hsub⟩ := groupLoop_invariant
    (fun m roots rest => ∃ done : List UUID, done ++ rest.map Comment.Id = res.map Comment.Id ∧
      MapOk m rest ∧ (forestIds roots ++ pendingIds m rest).Nodup ∧
      ∀ i ∈ forestIds roots ++ pendingIds m rest, i ∈ done)
    (by
      intro m roots val rest ⟨done, hdone, hok, hlive, hsub⟩
      obtain ⟨node, hnode⟩ := hok.2 val (List.mem_cons_self _ _)
      have hid : node.ID = val.Id := hok.1 _ _ hnode
      have hall : (done ++ (val.Id :: rest.map Comment.Id)).Nodup := by
        rw [← List.map_cons, hdone]; exact hnd
      have hvd : val.Id ∉ done := by
        intro h
        exact (List.nodup_append.1 hall).2.2 h (List.mem_cons_self _ _)
      have hrest : (rest.map Comment.Id).Nodup :=
        (List.nodup_cons.1 (List.nodup_append.1 hall).2.1).2
      have hdone' : (done ++ [val.Id]) ++ rest.map Comment.Id = res.map Comment.Id := by
        rw [← hdone]; simp
      have hpend : pendingIds m (val :: rest) = forestIds node.Childs ++ pendingIds m rest := by
        rw [pendingIds, hnode]
      rw [hpend] at hlive hsub
      have hvl : val.Id ∉ forestIds roots ++ (forestIds node.Childs ++ pendingIds m rest) :=
        fun h => hvd (hsub _ h)
      -- the roots gain a copy of the node
      have hroot : (forestIds (roots ++ [node]) ++ pendingIds m rest).Perm
          (val.Id :: (forestIds roots ++ (forestIds node.Childs ++ pendingIds m rest))) := by
        rw [forestIds_append, forestIds_singleton, hid, List.append_assoc, List.cons_append]
        exact List.perm_middle
      have hgrow : ∀ l : List UUID,
          l.Perm (val.Id :: (forestIds roots ++ (forestIds node.Childs ++ pendingIds m rest))) →
          l.Nodup ∧ ∀ i ∈ l, i ∈ done ++ [val.Id] := by
        intro l hl
        refine ⟨hl.nodup_iff.2 (List.nodup_cons.2 ⟨hvl, hlive⟩), fun i hi => ?_⟩
        rcases List.mem_cons.1 (hl.mem_iff.1 hi) with h | h
        · rw [h]; simp
        · exact List.mem_append_left _ (hsub i h)
      rcases groupStep_cases m roots val node hnode with ⟨-, hs⟩ | ⟨ht, p, hp, hs⟩ | ⟨-, -, hs⟩
      · exact ⟨_, hs, done ++ [val.Id], hdone', hok.tail, (hgrow _ hroot).1, (hgrow _ hroot).2⟩
      · refine ⟨_, hs, done ++ [val.Id], hdone', hok.tail.set_parent hp _, ?_⟩
        dsimp only
        by_cases htr : val.ThreadId ∈ rest.map Comment.Id
        · have hperm : (forestIds roots ++
              pendingIds (m.set val.ThreadId (.mk p.ID p.Comment (p.Childs ++ [node]))) rest).Perm
              (val.Id :: (forestIds roots ++ (forestIds node.Childs ++ pendingIds m rest))) := by
            refine (List.Perm.append_left _
              (pendingIds_set_mem m _ p [node] rest hrest htr hp)).trans ?_
            rw [forestIds_singleton, hid]
            refine (List.Perm.append_left _ List.perm_append_comm).trans ?_
            rw [List.cons_append]
            exact List.perm_middle
          exact hgrow _ hperm
        · rw [pendingIds_set_other _ _ _ _ htr]
          have hsl : (forestIds roots ++ pendingIds m rest).Sublist
              (forestIds roots ++ (forestIds node.Childs ++ pendingIds m rest)) :=
            List.Sublist.append (List.Sublist.refl _) (List.sublist_append_right _ _)
          exact ⟨hsl.nodup hlive, fun i hi => List.mem_append_left _ (hsub i (hsl.subset hi))⟩
      · exact ⟨_, hs, done ++ [val.Id], hdone', hok.tail, (hgrow _ hroot).1, (hgrow _ hroot).2⟩)
    res (firstPass loopvar res) []
    ⟨[], by simp, firstPass_ok loopvar res, by
      rw [pendingIds_firstPass]; simp [forestIds, subtrees], by
      rw [pendingIds_firstPass]; simp [forestIds, subtrees]⟩
  have hd : done = res.map Comment.Id := by simpa using hdone
  subst hd
  refine ⟨st, hst, ?_, ?_⟩
  · simpa [pendingIds] using hlive
  · intro i hi
    exact hsub i (by simpa [pendingIds] using hi)

/-- C22: with distinct ids in the input, whatever the thread ids are, no id occurs
twice among the nodes of the forest counted at every depth, every id of the forest
is an id of the input, the forest has at most as many nodes as the input has
comments, and the count of the response is the length of the input. -/
theorem C22_no_duplication (loopvar : Bool) (res : List Comment)
    (hnd : (res.map Comment.Id).Nodup) :
    ∃ r, FindComments loopvar res = some r ∧
      (forestIds r.comments).Nodup ∧
      (∀ c ∈ res, (forestIds r.comments).count c.Id ≤ 1) ∧
      (∀ i ∈ forestIds r.comments, i ∈ res.map Comment.Id) ∧
      (subtrees r.comments).length ≤ res.length ∧
      r.count = res.length := by
  obtain ⟨st, hst, hlive, hsub⟩ := forestIds_nodup loopvar res hnd
  refine ⟨_, FindComments_of_groupLoop hst, hlive,
    fun c _ => List.nodup_iff_count_le_one.1 hlive c.Id, hsub, ?_, rfl⟩
  have h := (List.subperm_of_subset hlive hsub).length_le
  simpa [forestIds] using h

/-- C22 at an input: the comments 1 and 2 name each other as thread, 4 follows its
root 3, 6 precedes its root 7, and 5 names a thread that is not there. -/
theorem C22_no_duplication_witness :
    ∃ r, FindComments true [{ Id := 1, ThreadId := 2 }, { Id := 2, ThreadId := 1 },
        { Id := 3, ThreadId := 3 }, { Id := 4, ThreadId := 3 }, { Id := 5, ThreadId := 9 },
        { Id := 6, ThreadId := 7 }, { Id := 7, ThreadId := 7 }] = some r ∧
      (forestIds r.comments).Nodup ∧
      (∀ c ∈ ([{ Id := 1, ThreadId := 2 }, { Id := 2, ThreadId := 1 },
        { Id := 3, ThreadId := 3 }, { Id := 4, ThreadId := 3 }, { Id := 5, ThreadId := 9 },
        { Id := 6, ThreadId := 7 }, { Id := 7, ThreadId := 7 }] : List Comment),
        (forestIds r.comments).count c.Id ≤ 1) ∧
      (∀ i ∈ forestIds r.comments, i ∈ ([{ Id := 1, ThreadId := 2 }, { Id := 2, ThreadId := 1 },
        { Id := 3, ThreadId := 3 }, { Id := 4, ThreadId := 3 }, { Id := 5, ThreadId := 9 },
        { Id := 6, ThreadId := 7 }, { Id := 7, ThreadId := 7 }] : List Comment).map
          Comment.Id) ∧
      (subtrees r.comments).length ≤ 7 ∧
      r.count = 7 :=
  C22_no_duplication true [{ Id := 1, ThreadId := 2 }, { Id := 2, ThreadId := 1 },
    { Id := 3, ThreadId := 3 }, { Id := 4, ThreadId := 3 }, { Id := 5, ThreadId := 9 },
    { Id := 6, ThreadId := 7 }, { Id := 7, ThreadId := 7 }] (by decide)


/-! ## Forest builder: the exact forest -/

theorem forestIds_cons (n : CommentNode) (f : List CommentNode) :
    forestIds (n :: f) = n.ID :: (forestIds n.Childs ++ forestIds f) := by
  have h : n :: f = [n] ++ f := rfl
  rw [h, forestIds_append, forestIds_singleton]
  rfl

theorem forestIds_leaves (loopvar : Bool) (res l : List Comment) :
    forestIds (l.map (leafNode loopvar res)) = l.map Comment.Id := by
  induction l with
  | nil => rfl
  | cons d l ih =>
    rw [List.map_cons, forestIds_cons, ih]
    rfl

theorem rootNode_snoc_other (loopvar : Bool) (res earlier : List Comment) (v c : Comment)
    (h : v.ThreadId ≠ c.Id) :
    rootNode loopvar res (earlier ++ [v]) c = rootNode loopvar res earlier c := by
  have hv : (v.ThreadId == c.Id) = false := by simpa using h
  simp [rootNode, List.filter_append, List.filter_cons, hv]

theorem rootNode_snoc_member (loopvar : Bool) (res earlier : List Comment) (v c : Comment)
    (h : v.ThreadId = c.Id) :
    rootNode loopvar res (earlier ++ [v]) c
      = .mk (rootNode loopvar res earlier c).ID (rootNode loopvar res earlier c).Comment
          ((rootNode loopvar res earlier c).Childs ++ [leafNode loopvar res v]) := by
  have hv : (v.ThreadId == c.Id) = true := by simpa using h
  simp [rootNode, List.filter_append, List.filter_cons, hv, CommentNode.ID, CommentNode.Comment,
    CommentNode.Childs]

/-- With distinct ids the first loop leaves, under the id of a comment of the input,
the node of that comment without children. -/
theorem firstPass_leaf (loopvar : Bool) (res : List Comment)
    (hnd : (res.map Comment.Id).Nodup) (c : Comment) (hc : c ∈ res) :
    firstPass loopvar res c.Id = some (leafNode loopvar res c) := by
  obtain ⟨c', hc', hid, hfold⟩ := firstPass_fold_comment (pointee loopvar res) res
    (fun _ => none) c.Id (List.mem_map_of_mem _ hc)
  have : c' = c := List.inj_on_of_nodup_map hnd hc' hc hid
  subst this
  exact hfold

/-- An id of the described forest is the id of a thread root of the input or of a
comment of the thread of a root that precedes the root. -/
theorem mem_forestIds_expectedFrom (loopvar : Bool) (res : List Comment) (i : UUID)
    (rest earlier : List Comment)
    (h : i ∈ forestIds (expectedFrom loopvar res earlier rest)) :
    ∃ a R b, rest = a ++ R :: b ∧ R.ThreadId = R.Id ∧
      (i = R.Id ∨ ∃ d ∈ earlier ++ a, d.ThreadId = R.Id ∧ d.Id = i) := by
  induction rest generalizing earlier with
  | nil => simp [expectedFrom, forestIds, subtrees] at h
  | cons c rest ih =>
    have hlater : i ∈ forestIds (expectedFrom loopvar res (earlier ++ [c]) rest) →
        ∃ a R b, c :: rest = a ++ R :: b ∧ R.ThreadId = R.Id ∧
          (i = R.Id ∨ ∃ d ∈ earlier ++ a, d.ThreadId = R.Id ∧ d.Id = i) := by
      intro h'
      obtain ⟨a, R, b, hsplit, hR, hi⟩ := ih (earlier ++ [c]) h'
      refine ⟨c :: a, R, b, by rw [hsplit]; rfl, hR, ?_⟩
      rcases hi with hi | ⟨d, hd, hdt, hdi⟩
      · exact Or.inl hi
      · exact Or.inr ⟨d, by simpa [List.append_assoc] using hd, hdt, hdi⟩
    by_cases hc : c.ThreadId = c.Id
    · rw [expectedFrom, if_pos hc, forestIds_cons] at h
      rcases List.mem_cons.1 h with h | h
      · exact ⟨[], c, rest, rfl, hc, Or.inl h⟩
      · rcases List.mem_append.1 h with h | h
        · have h' : i ∈ (earlier.filter (fun d => d.ThreadId == c.Id)).map Comment.Id := by
            rw [← forestIds_leaves loopvar res]
            exact h
          obtain ⟨d, hd, hdi⟩ := List.mem_map.1 h'
          have hd' := List.mem_filter.1 hd
          exact ⟨[], c, rest, rfl, hc, Or.inr ⟨d, by simpa using hd'.1, by simpa using hd'.2, hdi⟩⟩
        · exact hlater h
    · rw [expectedFrom, if_neg hc] at h
      exact hlater h

/-- With distinct ids and every thread id the comment's own id or the id of a thread
root of the input, the second loop ends with the described forest. -/
theorem groupLoop_expected (loopvar : Bool) (res : List Comment)
    (hnd : (res.map Comment.Id).Nodup)
    (hroot : ∀ c ∈ res, c.ThreadId = c.Id ∨
      ∃ p ∈ res, p.ThreadId = p.Id ∧ p.Id = c.ThreadId) :
    ∃ st, groupLoop (firstPass loopvar res) [] res = some st ∧
      st.2 = expectedForest loopvar res := by
  have hinj : ∀ x ∈ res, ∀ y ∈ res, x.Id = y.Id → x = y :=
    fun x hx y hy h => List.inj_on_of_nodup_map hnd hx hy h
  obtain ⟨st, hst, done, hdone, -, -, hfin⟩ := groupLoop_invariant
    (fun m roots rest => ∃ done, done ++ rest = res ∧
      (∀ c ∈ res, ∃ n, m c.Id = some n) ∧
      (∀ c ∈ rest, m c.Id = some (if c.ThreadId = c.Id then rootNode loopvar res done c
        else leafNode loopvar res c)) ∧
      roots ++ expectedFrom loopvar res done rest = expectedForest loopvar res)
    (by
      intro m roots val rest ⟨done, hdone, hdom, hkeys, hexp⟩
      have hval : val ∈ res := by rw [← hdone]; simp
      have hrest : ∀ c ∈ rest, c ∈ res := fun c hc => by
        rw [← hdone]; exact List.mem_append_right _ (List.mem_cons_of_mem _ hc)
      have hne : ∀ c ∈ rest, c.Id ≠ val.Id := by
        intro c hc hid
        have hnd' : ((val :: rest).map Comment.Id).Nodup := by
          have hsub : (val :: rest).map Comment.Id <+ res.map Comment.Id := by
            rw [← hdone]
            exact (List.sublist_append_right _ _).map _
          exact hsub.nodup hnd
        rw [List.map_cons, List.nodup_cons] at hnd'
        exact hnd'.1 (by rw [← hid]; exact List.mem_map_of_mem _ hc)
      have hdone' : (done ++ [val]) ++ rest = res := by rw [← hdone]; simp
      have hnode := hkeys val (List.mem_cons_self _ _)
      by_cases ht : val.ThreadId = val.Id
      · rw [if_pos ht] at hnode
        rcases groupStep_cases m roots val _ hnode with ⟨-, hs⟩ | ⟨ht', -⟩ | ⟨ht', -⟩
        · refine ⟨_, hs, done ++ [val], hdone', hdom, ?_, ?_⟩
          · intro c hc
            show m c.Id = _
            rw [hkeys c (List.mem_cons_of_mem _ hc),
              rootNode_snoc_other loopvar res done val c (by rw [ht]; exact (hne c hc).symm)]
          · rw [← hexp, expectedFrom, if_pos ht]
            simp
        · exact absurd ht ht'
        · exact absurd ht ht'
      · rw [if_neg ht] at hnode
        obtain ⟨q, hq, hqroot, hqid⟩ : ∃ q ∈ res, q.ThreadId = q.Id ∧ q.Id = val.ThreadId := by
          rcases hroot val hval with h | h
          · exact absurd h ht
          · exact h
        rcases groupStep_cases m roots val _ hnode with ⟨ht', -⟩ | ⟨-, p, hp, hs⟩ | ⟨-, hnone, -⟩
        · exact absurd ht' ht
        · refine ⟨_, hs, done ++ [val], hdone', ?_, ?_, ?_⟩
          · intro c hc
            dsimp only
            by_cases hck : c.Id = val.ThreadId
            · exact ⟨_, by rw [hck, CommentMap.set_same]⟩
            · rw [CommentMap.set_other _ _ _ _ hck]
              exact hdom c hc
          · intro c hc
            dsimp only
            by_cases hck : c.Id = val.ThreadId
            · have hcq : c = q := hinj c (hrest c hc) q hq (hck.trans hqid.symm)
              have hcroot : c.ThreadId = c.Id := hcq ▸ hqroot
              have hold := hkeys c (List.mem_cons_of_mem _ hc)
              rw [if_pos hcroot, hck, hp] at hold
              have hset : (m.set val.ThreadId
                  (.mk p.ID p.Comment (p.Childs ++ [leafNode loopvar res val]))) c.Id
                  = some (.mk p.ID p.Comment (p.Childs ++ [leafNode loopvar res val])) := by
                rw [hck]
                exact CommentMap.set_same _ _ _
              rw [hset, if_pos hcroot, rootNode_snoc_member loopvar res done val c hck.symm,
                ← Option.some.inj hold]
            · rw [CommentMap.set_other _ _ _ _ hck, hkeys c (List.mem_cons_of_mem _ hc),
                rootNode_snoc_other loopvar res done val c (fun h => hck h.symm)]
          · rw [← hexp, expectedFrom, if_neg ht]
        · obtain ⟨n, hn⟩ := hdom q hq
          rw [hqid, hnone] at hn
          cases hn)
    res (firstPass loopvar res) []
    ⟨[], by simp, fun c hc => ⟨_, firstPass_leaf loopvar res hnd c hc⟩, (by
      intro c hc
      rw [firstPass_leaf loopvar res hnd c hc]
      split <;> rfl), by simp [expectedForest]⟩
  refine ⟨st, hst, ?_⟩
  rw [← hfin]
  simp [expectedFrom]

/-- C21: with distinct ids in the input and every thread id the comment's own id or
the id of a thread root of the input, the forest of both handlers is the thread
roots in input order, each with exactly the comments of its thread that precede it
in the input, in input order, as children without children; the id of a comment of
a thread that follows the thread's root in the input is the id of no node of the
forest, at any depth. -/
theorem C21_exact_forest (loopvar : Bool) (res : List Comment)
    (hnd : (res.map Comment.Id).Nodup)
    (hroot : ∀ c ∈ res, c.ThreadId = c.Id ∨
      ∃ p ∈ res, p.ThreadId = p.Id ∧ p.Id = c.ThreadId) :
    ∃ r, FindComments loopvar res = some r ∧ FindCommentsByArticle loopvar res = some r ∧
      r.comments = expectedForest loopvar res ∧
      ∀ R c : Comment, [R, c] <+ res → R.ThreadId = R.Id → c.ThreadId = R.Id →
        c.Id ∉ forestIds r.comments := by
  obtain ⟨st, hst, hexp⟩ := groupLoop_expected loopvar res hnd hroot
  refine ⟨{ comments := st.2, count := res.length }, FindComments_of_groupLoop hst,
    by simp [FindCommentsByArticle, hst], hexp, ?_⟩
  intro R c hRc hR hc hmem
  have hinj : ∀ x ∈ res, ∀ y ∈ res, x.Id = y.Id → x = y :=
    fun x hx y hy h => List.inj_on_of_nodup_map hnd hx hy h
  have hRres : R ∈ res := hRc.subset (by simp)
  have hcres : c ∈ res := hRc.subset (by simp)
  have hids : [R.Id, c.Id] <+ res.map Comment.Id := by simpa using hRc.map Comment.Id
  have hneq : R.Id ≠ c.Id := by
    intro h
    rw [h] at hids
    have h2 := hids.nodup hnd
    simp at h2
  have hmem' : c.Id ∈ forestIds (expectedFrom loopvar res [] res) := by
    rw [← expectedForest, ← hexp]
    exact hmem
  obtain ⟨a, R', b, hsplit, hR', hi⟩ := mem_forestIds_expectedFrom loopvar res c.Id res [] hmem'
  have hR'res : R' ∈ res := by rw [hsplit]; simp
  rcases hi with hi | ⟨d, hd, hdt, hdi⟩
  · have hcR' : c = R' := hinj c hcres R' hR'res hi
    rw [← hcR'] at hR'
    exact hneq (hc.symm.trans hR')
  · have hda : d ∈ a := by simpa using hd
    have hdres : d ∈ res := by rw [hsplit]; exact List.mem_append_left _ hda
    have hdc : d = c := hinj d hdres c hcres hdi
    rw [hdc] at hda hdt
    have hRR' : R' = R := hinj R' hR'res R hRres (hdt.symm.trans hc)
    rw [hRR'] at hsplit
    have hord : [c.Id, R.Id] <+ res.map Comment.Id := by
      have h1 : [c] ++ [R] <+ a ++ R :: b :=
        List.Sublist.append (List.singleton_sublist.2 hda)
          (List.Sublist.cons₂ R (List.nil_sublist b))
      rw [← hsplit] at h1
      simpa using h1.map Comment.Id
    exact pair_sublist_asymm _ _ _ hnd hids hord

/-- C21 at an input: the thread of the root 1 has the member 2 before the root and
the member 3 after it; 4 is a root without members. -/
theorem C21_exact_forest_witness :
    ∃ r, FindComments true [{ Id := 2, ThreadId := 1 }, { Id := 1, ThreadId := 1 },
        { Id := 3, ThreadId := 1 }, { Id := 4, ThreadId := 4 }] = some r ∧
      FindCommentsByArticle true [{ Id := 2, ThreadId := 1 }, { Id := 1, ThreadId := 1 },
        { Id := 3, ThreadId := 1 }, { Id := 4, ThreadId := 4 }] = some r ∧
      r.comments = expectedForest true [{ Id := 2, ThreadId := 1 }, { Id := 1, ThreadId := 1 },
        { Id := 3, ThreadId := 1 }, { Id := 4, ThreadId := 4 }] ∧
      ∀ R c : Comment, [R, c] <+ [{ Id := 2, ThreadId := 1 }, { Id := 1, ThreadId := 1 },
        { Id := 3, ThreadId := 1 }, ({ Id := 4, ThreadId := 4 } : Comment)] →
        R.ThreadId = R.Id → c.ThreadId = R.Id → c.Id ∉ forestIds r.comments :=
  C21_exact_forest true [{ Id := 2, ThreadId := 1 }, { Id := 1, ThreadId := 1 },
    { Id := 3, ThreadId := 1 }, { Id := 4, ThreadId := 4 }] (by decide) (by decide)


end Forum
